import Mathlib

/-!
# Channel Sounding initiator: ranging procedure synchronisation

A shallow embedding of `samples/bluetooth/channel_sounding_ras_initiator/src/main.c`:
the module statics become the fields of `State`, the notification handlers
(`subevent_result_cb`, `ranging_data_get_complete_cb`, `ranging_data_ready_cb`,
`ranging_data_overwritten_cb`) become functions `State → State`, and one pass
through the body of the `while (true)` loop of `main` becomes
`main_loop_iteration`.

Handlers run while the main thread is suspended in `k_sem_take`; the
notifications that arrive during each wait are an argument of the model
(`LoopEnv`), as are the return values of the controller and transfer calls.
Every call the program makes to a collaborator is appended to `State.calls`,
so that "the fetch was issued" or "the semaphore was given" can be read off a
run.
-/

namespace ChannelSounding

/-! ## Data model -/

/-- One octet of step data. -/
abbrev Byte := Fin 256

/-- A `uint16_t` value. -/
abbrev U16 := Fin 65536

/-- A `uint8_t` value. -/
abbrev U8 := Fin 256

/-- `#define PROCEDURE_COUNTER_NONE (-1)` -/
def PROCEDURE_COUNTER_NONE : Int := -1

/-- Modelled from the spec: `struct net_buf_simple` (declared outside the sample) as the
Step Buffer of section 4.1, a fixed capacity `size` and the bytes `[0, len)` held so far.
Nothing in the sample reserves headroom, so `data` starts at the start of the storage. -/
structure NetBufSimple where
  size : Nat
  data : List Byte
deriving DecidableEq, Repr

/-- The `len` field of the buffer. -/
def NetBufSimple.len (buf : NetBufSimple) : Nat := buf.data.length

/-- Modelled from the spec: `net_buf_simple_reset`, "unconditionally sets length to zero",
capacity retained. -/
def net_buf_simple_reset (buf : NetBufSimple) : NetBufSimple :=
  { buf with data := [] }

/-- Modelled from the spec: `net_buf_simple_tailroom`, the remaining capacity. -/
def net_buf_simple_tailroom (buf : NetBufSimple) : Nat :=
  buf.size - buf.len

/-- Modelled from the spec: `net_buf_simple_add_mem`, the bytes are appended in order. -/
def net_buf_simple_add_mem (buf : NetBufSimple) (mem : List Byte) : NetBufSimple :=
  { buf with data := buf.data ++ mem }

/-- Modelled from the spec: the subevent-done status of a notification (`normal` | `aborted`);
the sample only tests for `BT_CONN_LE_CS_SUBEVENT_ABORTED`. -/
inductive SubeventDoneStatus where
  | normal
  | BT_CONN_LE_CS_SUBEVENT_ABORTED
deriving DecidableEq, Repr

/-- Modelled from the spec: the procedure-done status of a notification
(`continuing` | `complete` | `aborted`). -/
inductive ProcedureDoneStatus where
  | continuing
  | BT_CONN_LE_CS_PROCEDURE_COMPLETE
  | BT_CONN_LE_CS_PROCEDURE_ABORTED
deriving DecidableEq, Repr

/-- The fields of `result->header` that `subevent_result_cb` reads. -/
structure SubeventResultHeader where
  procedure_counter : U16
  subevent_done_status : SubeventDoneStatus
  procedure_done_status : ProcedureDoneStatus
  num_antenna_paths : U8
deriving DecidableEq, Repr

/-- The `struct bt_conn_le_cs_subevent_result` handed to `subevent_result_cb`;
`step_data_buf` is `none` for a NULL pointer. -/
structure SubeventResult where
  header : SubeventResultHeader
  step_data_buf : Option (List Byte)
deriving DecidableEq, Repr

/-- The three semaphores used by the ranging loop, each `K_SEM_DEFINE(_, 0, 1)`. -/
inductive Sem where
  | sem_procedure_done
  | sem_rd_ready
  | sem_rd_complete
deriving DecidableEq, Repr

/-- A call made by the sample to one of its collaborators, with the arguments as the callee
receives them (`ranging_counter` is a `uint16_t` parameter, a value in 0..65535). -/
inductive Call where
  | k_sem_give (sem : Sem)
  | bt_le_cs_procedure_enable
  | bt_ras_rreq_cp_get_ranging_data (ranging_counter : Int)
  | estimate_distance (local_steps peer_steps : List Byte) (n_ap : U8)
deriving DecidableEq, Repr

/-- The module statics of `main.c` read or written by the ranging loop and its handlers,
the counts of the three semaphores, and the log of collaborator calls made so far. -/
structure State where
  n_ap : U8
  latest_local_steps : NetBufSimple
  latest_peer_steps : NetBufSimple
  most_recent_peer_ranging_counter : Int
  most_recent_local_ranging_counter : Int
  dropped_ranging_counter : Int
  sem_procedure_done : Nat
  sem_rd_ready : Nat
  sem_rd_complete : Nat
  calls : List Call
deriving DecidableEq, Repr

/-- The statics as initialised at program start; the two capacities are
`LOCAL_PROCEDURE_MEM` and `BT_RAS_PROCEDURE_MEM`, whose defining constants are
declared outside the sample. -/
def State.init (LOCAL_PROCEDURE_MEM BT_RAS_PROCEDURE_MEM : Nat) : State :=
  { n_ap := 0
    latest_local_steps := { size := LOCAL_PROCEDURE_MEM, data := [] }
    latest_peer_steps := { size := BT_RAS_PROCEDURE_MEM, data := [] }
    most_recent_peer_ranging_counter := PROCEDURE_COUNTER_NONE
    most_recent_local_ranging_counter := PROCEDURE_COUNTER_NONE
    dropped_ranging_counter := PROCEDURE_COUNTER_NONE
    sem_procedure_done := 0
    sem_rd_ready := 0
    sem_rd_complete := 0
    calls := [] }

/-- Appends a collaborator call to the log. -/
def State.log (c : Call) (s : State) : State :=
  { s with calls := s.calls ++ [c] }

/-- The count of a semaphore. -/
def State.count (sem : Sem) (s : State) : Nat :=
  match sem with
  | .sem_procedure_done => s.sem_procedure_done
  | .sem_rd_ready => s.sem_rd_ready
  | .sem_rd_complete => s.sem_rd_complete

/-- Stores a new count for a semaphore. -/
def State.setCount (sem : Sem) (n : Nat) (s : State) : State :=
  match sem with
  | .sem_procedure_done => { s with sem_procedure_done := n }
  | .sem_rd_ready => { s with sem_rd_ready := n }
  | .sem_rd_complete => { s with sem_rd_complete := n }

/-! ## Notification handlers -/

/-- Modelled from the spec: `k_sem_give`, "signal the Orchestrator"; the count of a
semaphore defined with limit 1 goes up by one unless it is already at the limit. -/
def k_sem_give (sem : Sem) (s : State) : State :=
  let s1 := s.log (Call.k_sem_give sem)
  if s1.count sem ≠ 1 then s1.setCount sem (s1.count sem + 1) else s1

/-- Lines 88-97 of `main.c`: the end of `subevent_result_cb`, reached once the step data
(if any) has been stored. -/
def subevent_result_done (result : SubeventResult) (s : State) : State :=
  let s1 := { s with dropped_ranging_counter := PROCEDURE_COUNTER_NONE
                     n_ap := result.header.num_antenna_paths }
  if result.header.procedure_done_status = .BT_CONN_LE_CS_PROCEDURE_COMPLETE then
    k_sem_give .sem_procedure_done
      { s1 with most_recent_local_ranging_counter := (result.header.procedure_counter.val : Int) }
  else if result.header.procedure_done_status = .BT_CONN_LE_CS_PROCEDURE_ABORTED then
    { s1 with latest_local_steps := net_buf_simple_reset s1.latest_local_steps }
  else
    s1

/-- Lines 56-98 of `main.c`. -/
def subevent_result_cb (result : SubeventResult) (s : State) : State :=
  if result.header.subevent_done_status = .BT_CONN_LE_CS_SUBEVENT_ABORTED then
    { s with dropped_ranging_counter := (result.header.procedure_counter.val : Int)
             latest_local_steps := net_buf_simple_reset s.latest_local_steps }
  else if s.dropped_ranging_counter = (result.header.procedure_counter.val : Int) then
    s
  else
    match result.step_data_buf with
    | some step_data =>
      if step_data.length ≤ net_buf_simple_tailroom s.latest_local_steps then
        subevent_result_done result
          { s with latest_local_steps := net_buf_simple_add_mem s.latest_local_steps step_data }
      else
        { s with latest_local_steps := net_buf_simple_reset s.latest_local_steps
                 dropped_ranging_counter := (result.header.procedure_counter.val : Int) }
    | none => subevent_result_done result s

/-- Lines 100-112 of `main.c`. -/
def ranging_data_get_complete_cb (_ranging_counter : U16) (err : Int) (s : State) : State :=
  if err ≠ 0 then s else k_sem_give .sem_rd_complete s

/-- Lines 114-119 of `main.c`. -/
def ranging_data_ready_cb (ranging_counter : U16) (s : State) : State :=
  k_sem_give .sem_rd_ready
    { s with most_recent_peer_ranging_counter := (ranging_counter.val : Int) }

/-- Lines 121-124 of `main.c`: the handler only logs. -/
def ranging_data_overwritten_cb (_ranging_counter : U16) (s : State) : State :=
  s

/-- Modelled from the spec: the transfer protocol's reassembly layer populating the buffer
handed to the fetch ("undefined-but-bounded"): any contents within the capacity. -/
def ranging_data_store (data : List Byte) (s : State) : State :=
  { s with latest_peer_steps :=
      { s.latest_peer_steps with data := data.take s.latest_peer_steps.size } }

/-- A notification delivered to the sample while the main thread is suspended. -/
inductive Event where
  | subevent_result (result : SubeventResult)
  | ranging_data_get_complete (ranging_counter : U16) (err : Int)
  | ranging_data_ready (ranging_counter : U16)
  | ranging_data_overwritten (ranging_counter : U16)
  | ranging_data_store (data : List Byte)
deriving DecidableEq, Repr

/-- Runs the handler registered for a notification. -/
def deliver (s : State) (e : Event) : State :=
  match e with
  | .subevent_result result => subevent_result_cb result s
  | .ranging_data_get_complete c err => ranging_data_get_complete_cb c err s
  | .ranging_data_ready c => ranging_data_ready_cb c s
  | .ranging_data_overwritten c => ranging_data_overwritten_cb c s
  | .ranging_data_store data => ranging_data_store data s

/-! ## The ranging loop of `main` -/

/-- `EAGAIN`, returned (negated) by a wait that timed out. -/
def EAGAIN : Int := 11

/-- Modelled from the spec: `k_sem_take` with a timeout, a "bounded wait": the notifications
`during` the wait are handled, then the semaphore is taken if it is available (return 0),
else the wait has timed out (return `-EAGAIN`). -/
def k_sem_take (sem : Sem) (during : List Event) (s : State) : Int × State :=
  let s1 := during.foldl deliver s
  if s1.count sem = 0 then (-EAGAIN, s1) else (0, s1.setCount sem (s1.count sem - 1))

/-- What the surroundings contribute to one pass through the ranging loop: the values
returned by the controller and by the transfer request, and the notifications arriving
during each of the bounded waits. -/
structure LoopEnv where
  procedure_enable_err : Int
  during_procedure_done_wait : List Event
  during_grace_wait : List Event
  during_rd_ready_wait : List Event
  get_ranging_data_err : Int
  during_rd_complete_wait : List Event
deriving DecidableEq, Repr

/-- How one pass through the body of `while (true)` ended: `return 0` after a failed
enable, one of the five `goto retry`, or falling into `retry:` after `estimate_distance`. -/
inductive LoopExit where
  | return_enable_failed
  | retry_procedure_done_timeout
  | retry_rd_ready_timeout
  | retry_counter_mismatch
  | retry_get_ranging_data_failed
  | retry_rd_complete_timeout
  | estimated
deriving DecidableEq, Repr

/-- The five `goto retry` exits. -/
def LoopExit.isRetry (x : LoopExit) : Bool :=
  match x with
  | .retry_procedure_done_timeout => true
  | .retry_rd_ready_timeout => true
  | .retry_counter_mismatch => true
  | .retry_get_ranging_data_failed => true
  | .retry_rd_complete_timeout => true
  | _ => false

/-- Lines 601-603 of `main.c`: the code at the `retry:` label. -/
def retry (s : State) : State :=
  { s with latest_local_steps := net_buf_simple_reset s.latest_local_steps
           latest_peer_steps := net_buf_simple_reset s.latest_peer_steps }

/-- Line 561: `k_sem_take(&sem_procedure_done, K_SECONDS(1))`, after the enable of line 555. -/
def procedure_done_wait (env : LoopEnv) (s : State) : Int × State :=
  k_sem_take .sem_procedure_done env.during_procedure_done_wait
    (s.log Call.bt_le_cs_procedure_enable)

/-- Line 571: `k_sem_take(&sem_rd_ready, K_SECONDS(1))`, after a successful line 561. -/
def rd_ready_wait (env : LoopEnv) (s : State) : Int × State :=
  k_sem_take .sem_rd_ready env.during_rd_ready_wait (procedure_done_wait env s).2

/-- Line 577: the comparison that sends the loop to `retry`. -/
def counters_mismatch (s : State) : Bool :=
  s.most_recent_peer_ranging_counter != s.most_recent_local_ranging_counter

/-- The argument of line 585: the `int32_t` static `most_recent_peer_ranging_counter` is
passed to a `uint16_t ranging_counter` parameter, so it arrives reduced modulo 2^16
(`PROCEDURE_COUNTER_NONE` would arrive as 65535). -/
def ranging_counter_arg (s : State) : Int :=
  s.most_recent_peer_ranging_counter % 65536

/-- Lines 584-586: the call of `bt_ras_rreq_cp_get_ranging_data`. -/
def get_ranging_data (s : State) : State :=
  s.log (Call.bt_ras_rreq_cp_get_ranging_data (ranging_counter_arg s))

/-- Line 592: `k_sem_take(&sem_rd_complete, K_SECONDS(5))`, after the fetch was issued. -/
def rd_complete_wait (env : LoopEnv) (s : State) : Int × State :=
  k_sem_take .sem_rd_complete env.during_rd_complete_wait
    (get_ranging_data (rd_ready_wait env s).2)

/-- Lines 598-599: the call of `estimate_distance`. -/
def estimate_distance (s : State) : State :=
  s.log (Call.estimate_distance s.latest_local_steps.data s.latest_peer_steps.data s.n_ap)

/-- Lines 555-603 of `main.c`: one pass through the body of the ranging loop. -/
def main_loop_iteration (env : LoopEnv) (s : State) : LoopExit × State :=
  if env.procedure_enable_err ≠ 0 then
    (.return_enable_failed, s.log Call.bt_le_cs_procedure_enable)
  else if (procedure_done_wait env s).1 ≠ 0 then
    (.retry_procedure_done_timeout,
      retry (k_sem_take .sem_rd_ready env.during_grace_wait (procedure_done_wait env s).2).2)
  else if (rd_ready_wait env s).1 ≠ 0 then
    (.retry_rd_ready_timeout, retry (rd_ready_wait env s).2)
  else if counters_mismatch (rd_ready_wait env s).2 then
    (.retry_counter_mismatch, retry (rd_ready_wait env s).2)
  else if env.get_ranging_data_err ≠ 0 then
    (.retry_get_ranging_data_failed, retry (get_ranging_data (rd_ready_wait env s).2))
  else if (rd_complete_wait env s).1 ≠ 0 then
    (.retry_rd_complete_timeout, retry (rd_complete_wait env s).2)
  else
    (.estimated, retry (estimate_distance (rd_complete_wait env s).2))

/-- The collaborator calls made during one pass through the loop. -/
def iteration_calls (env : LoopEnv) (s : State) : List Call :=
  (main_loop_iteration env s).2.calls.drop s.calls.length

/-! ## Auxiliary definitions and concrete runs -/

/-- A logged call that is a semaphore give. -/
def Call.isGive (c : Call) : Prop := ∃ sem, c = Call.k_sem_give sem

/-- The calls logged by one pass through the loop, by the way the pass ended. -/
def LoopExit.callsShape (x : LoopExit) (g1 g2 g3 : List Call) (fetch est : Call) : List Call :=
  match x with
  | .return_enable_failed => [Call.bt_le_cs_procedure_enable]
  | .retry_procedure_done_timeout => Call.bt_le_cs_procedure_enable :: (g1 ++ g2)
  | .retry_rd_ready_timeout => Call.bt_le_cs_procedure_enable :: (g1 ++ g2)
  | .retry_counter_mismatch => Call.bt_le_cs_procedure_enable :: (g1 ++ g2)
  | .retry_get_ranging_data_failed => Call.bt_le_cs_procedure_enable :: (g1 ++ g2 ++ [fetch])
  | .retry_rd_complete_timeout => Call.bt_le_cs_procedure_enable :: (g1 ++ g2 ++ [fetch] ++ g3)
  | .estimated => Call.bt_le_cs_procedure_enable :: (g1 ++ g2 ++ [fetch] ++ g3 ++ [est])

/-- A notification for `counter` with the given statuses and step data, one antenna path. -/
def notification (counter : U16) (sub : SubeventDoneStatus) (done : ProcedureDoneStatus)
    (steps : Option (List Byte)) : SubeventResult :=
  { header := { procedure_counter := counter, subevent_done_status := sub,
                procedure_done_status := done, num_antenna_paths := 1 }
    step_data_buf := steps }

/-- Surroundings in which the local procedure `loc` completes with two step bytes, the peer
reports `peer` ready, and the fetch (if issued) completes without error. -/
def env_complete (loc peer : U16) : LoopEnv :=
  { procedure_enable_err := 0
    during_procedure_done_wait :=
      [Event.subevent_result
        (notification loc .normal .BT_CONN_LE_CS_PROCEDURE_COMPLETE (some [1, 2]))]
    during_grace_wait := []
    during_rd_ready_wait := [Event.ranging_data_ready peer]
    get_ranging_data_err := 0
    during_rd_complete_wait :=
      [Event.ranging_data_store [9, 8, 7], Event.ranging_data_get_complete peer 0] }

/-- The step bytes carried by a notification, none for a NULL `step_data_buf`. -/
def SubeventResult.step_bytes (r : SubeventResult) : List Byte :=
  r.step_data_buf.getD []

/-- The counter of a notification, widened as in the comparisons of `subevent_result_cb`. -/
def SubeventResult.counter (r : SubeventResult) : Int :=
  (r.header.procedure_counter.val : Int)

/-- The handler run on a sequence of notifications in arrival order. -/
def subevent_results (rs : List SubeventResult) (s : State) : State :=
  rs.foldl (fun st r => subevent_result_cb r st) s

/-- Surroundings in which a subevent of procedure 3 is reported aborted during the wait for
local completion and nothing else arrives. -/
def env_subevent_aborted : LoopEnv :=
  { procedure_enable_err := 0
    during_procedure_done_wait :=
      [Event.subevent_result
        (notification 3 .BT_CONN_LE_CS_SUBEVENT_ABORTED .continuing none)]
    during_grace_wait := []
    during_rd_ready_wait := []
    get_ranging_data_err := 0
    during_rd_complete_wait := [] }

/-- Surroundings in which procedure 5 completes locally, the peer reports 5 ready, the fetch
is accepted and no completion arrives within the wait. -/
def env_fetch_times_out : LoopEnv :=
  { procedure_enable_err := 0
    during_procedure_done_wait :=
      [Event.subevent_result
        (notification 5 .normal .BT_CONN_LE_CS_PROCEDURE_COMPLETE (some [1, 2]))]
    during_grace_wait := []
    during_rd_ready_wait := [Event.ranging_data_ready 5]
    get_ranging_data_err := 0
    during_rd_complete_wait := [] }

/-- Surroundings of the next pass: the completion of the earlier fetch of 5 arrives late and
without error, procedure 6 completes locally, the peer reports 6 ready, the fetch of 6 is
accepted and its completion callback reports error -5. -/
def env_late_completion : LoopEnv :=
  { procedure_enable_err := 0
    during_procedure_done_wait :=
      [Event.ranging_data_get_complete 5 0,
       Event.subevent_result
        (notification 6 .normal .BT_CONN_LE_CS_PROCEDURE_COMPLETE (some [3, 4]))]
    during_grace_wait := []
    during_rd_ready_wait := [Event.ranging_data_ready 6]
    get_ranging_data_err := 0
    during_rd_complete_wait := [Event.ranging_data_get_complete 6 (-5)] }

/-- What can happen to the local buffer: a subevent notification is handled, or the ranging
loop passes through `retry:` and resets the buffers. -/
inductive Action where
  | notify (result : SubeventResult)
  | reset
deriving DecidableEq, Repr

/-- The state together with, for each byte held in `latest_local_steps`, the procedure
counter of the notification that delivered it (bookkeeping only, not in the program). -/
structure Tagged where
  state : State
  owners : List U16
deriving DecidableEq, Repr

/-- One action on the tagged state: the bytes a handler call adds to the buffer are owned
by the counter of its notification; an emptied buffer has no owners. -/
def Tagged.step (t : Tagged) (a : Action) : Tagged :=
  match a with
  | .reset => { state := retry t.state, owners := [] }
  | .notify r =>
    { state := subevent_result_cb r t.state
      owners :=
        if (subevent_result_cb r t.state).latest_local_steps.len = 0 then []
        else t.owners ++ List.replicate
          ((subevent_result_cb r t.state).latest_local_steps.len - t.state.latest_local_steps.len)
          r.header.procedure_counter }

/-- The tagged initial state. -/
def Tagged.init (LOCAL_PROCEDURE_MEM BT_RAS_PROCEDURE_MEM : Nat) : Tagged :=
  { state := State.init LOCAL_PROCEDURE_MEM BT_RAS_PROCEDURE_MEM, owners := [] }

/-- All bytes held were delivered by notifications carrying one and the same counter. -/
def Tagged.single_procedure (t : Tagged) : Prop :=
  ∀ a ∈ t.owners, ∀ b ∈ t.owners, a = b

/-- Decidability of `single_procedure`, by inspection of the owners. -/
instance Tagged.decidableSingleProcedure (t : Tagged) : Decidable t.single_procedure := by
  unfold Tagged.single_procedure
  exact inferInstance

/-- A run of actions on the tagged state. -/
def Tagged.run (acts : List Action) (t : Tagged) : Tagged :=
  acts.foldl Tagged.step t

/-- Modelled from the spec: the append of section 4.1 with its failure made explicit,
"fails with `Overflow` if `bytes.length` exceeds remaining capacity" (the capacity
assertion of `net_buf_simple_add_mem`): `none` stands for the overflow branch. -/
def net_buf_simple_add_mem_checked (buf : NetBufSimple) (mem : List Byte) :
    Option NetBufSimple :=
  if mem.length ≤ net_buf_simple_tailroom buf then some (net_buf_simple_add_mem buf mem)
  else none

/-- Lines 56-98 of `main.c` once more, with the append of line 77 replaced by the checked
append: the result is `none` if line 77 is ever entered with more bytes than the tailroom. -/
def subevent_result_cb_checked (result : SubeventResult) (s : State) : Option State :=
  if result.header.subevent_done_status = .BT_CONN_LE_CS_SUBEVENT_ABORTED then
    some { s with dropped_ranging_counter := (result.header.procedure_counter.val : Int)
                  latest_local_steps := net_buf_simple_reset s.latest_local_steps }
  else if s.dropped_ranging_counter = (result.header.procedure_counter.val : Int) then
    some s
  else
    match result.step_data_buf with
    | some step_data =>
      if step_data.length ≤ net_buf_simple_tailroom s.latest_local_steps then
        (net_buf_simple_add_mem_checked s.latest_local_steps step_data).map
          (fun buf => subevent_result_done result { s with latest_local_steps := buf })
      else
        some { s with latest_local_steps := net_buf_simple_reset s.latest_local_steps
                      dropped_ranging_counter := (result.header.procedure_counter.val : Int) }
    | none => some (subevent_result_done result s)

/-- One step of an execution: a handler runs, the ranging loop performs one of its own
operations (a semaphore take that returns, a logged call, the resets at `retry:`), or the
loop makes a whole pass in given surroundings. -/
inductive Step where
  | deliver (e : Event)
  | take (sem : Sem)
  | call (c : Call)
  | retry
  | pass (env : LoopEnv)
deriving DecidableEq, Repr

/-- The state after one step. -/
def Step.apply (s : State) (st : Step) : State :=
  match st with
  | .deliver e => ChannelSounding.deliver s e
  | .take sem => (k_sem_take sem [] s).2
  | .call c => s.log c
  | .retry => ChannelSounding.retry s
  | .pass env => (main_loop_iteration env s).2

/-- The state after a sequence of steps, in any interleaving. -/
def run (steps : List Step) (s : State) : State :=
  steps.foldl Step.apply s

/-- The semaphores vouch for the counters: an available `sem_procedure_done` means the
local counter is set, an available `sem_rd_ready` means the peer counter is set. -/
def sem_inv (s : State) : Prop :=
  (0 < s.sem_procedure_done → s.most_recent_local_ranging_counter ≠ PROCEDURE_COUNTER_NONE) ∧
  (0 < s.sem_rd_ready → s.most_recent_peer_ranging_counter ≠ PROCEDURE_COUNTER_NONE)

/-- A property of states kept by every handler and every operation of the loop. -/
structure Stable (P : State → Prop) : Prop where
  deliver : ∀ s e, P s → P (deliver s e)
  take : ∀ s sem, P s → P (k_sem_take sem [] s).2
  log : ∀ s c, P s → P (s.log c)
  retry : ∀ s, P s → P (retry s)

/-- The notification gets step data into the buffer and leaves it there: subevent not
aborted, counter not the dropped one, step data present, non-empty and within the tailroom
(line 73), procedure-done status not aborted. -/
def SubeventResult.stores (r : SubeventResult) (s : State) : Bool :=
  decide (r.header.subevent_done_status ≠ .BT_CONN_LE_CS_SUBEVENT_ABORTED) &&
  decide (s.dropped_ranging_counter ≠ r.counter) &&
  decide (r.step_bytes ≠ []) &&
  decide (r.step_bytes.length ≤ net_buf_simple_tailroom s.latest_local_steps) &&
  decide (r.header.procedure_done_status ≠ .BT_CONN_LE_CS_PROCEDURE_ABORTED)

/-- The action puts bytes of one procedure next to bytes of another: a notification that
stores step data while the buffer holds a byte owned by a different counter. -/
def Tagged.mixes (t : Tagged) (a : Action) : Bool :=
  match a with
  | .reset => false
  | .notify r =>
    r.stores t.state && t.owners.any (fun o => decide (o ≠ r.header.procedure_counter))

/-- No action of the run mixes procedures in the state it meets. -/
def Tagged.separated (t : Tagged) : List Action → Bool
  | [] => true
  | a :: rest => !(t.mixes a) && Tagged.separated (t.step a) rest

/-! ## The log of collaborator calls only grows -/

theorem log_calls (c : Call) (s : State) : (s.log c).calls = s.calls ++ [c] := rfl

theorem setCount_calls (sem : Sem) (n : Nat) (s : State) :
    (s.setCount sem n).calls = s.calls := by
  cases sem <;> rfl

theorem k_sem_give_calls (sem : Sem) (s : State) :
    (k_sem_give sem s).calls = s.calls ++ [Call.k_sem_give sem] := by
  unfold k_sem_give
  simp only []
  split
  · rw [setCount_calls, log_calls]
  · rw [log_calls]

theorem subevent_result_cb_calls (r : SubeventResult) (s : State) :
    ∃ l, (subevent_result_cb r s).calls = s.calls ++ l ∧ ∀ c ∈ l, c.isGive := by
  unfold subevent_result_cb subevent_result_done
  split
  · exact ⟨[], by simp⟩
  · split
    · exact ⟨[], by simp⟩
    · split
      · split
        · split
          · exact ⟨[_], by rw [k_sem_give_calls], by simp [Call.isGive]⟩
          · split <;> exact ⟨[], by simp⟩
        · exact ⟨[], by simp⟩
      · split
        · exact ⟨[_], by rw [k_sem_give_calls], by simp [Call.isGive]⟩
        · split <;> exact ⟨[], by simp⟩

theorem deliver_calls (s : State) (e : Event) :
    ∃ l, (deliver s e).calls = s.calls ++ l ∧ ∀ c ∈ l, c.isGive := by
  cases e with
  | subevent_result r => exact subevent_result_cb_calls r s
  | ranging_data_get_complete c err =>
    simp only [deliver, ranging_data_get_complete_cb]
    split
    · exact ⟨[], by simp⟩
    · exact ⟨[_], by rw [k_sem_give_calls], by simp [Call.isGive]⟩
  | ranging_data_ready c =>
    exact ⟨[_], by simp only [deliver, ranging_data_ready_cb]; rw [k_sem_give_calls],
      by simp [Call.isGive]⟩
  | ranging_data_overwritten c => exact ⟨[], by simp [deliver, ranging_data_overwritten_cb]⟩
  | ranging_data_store d => exact ⟨[], by simp [deliver, ranging_data_store]⟩

theorem foldl_deliver_calls (evs : List Event) (s : State) :
    ∃ l, (evs.foldl deliver s).calls = s.calls ++ l ∧ ∀ c ∈ l, c.isGive := by
  induction evs generalizing s with
  | nil => exact ⟨[], by simp⟩
  | cons e es ih =>
    obtain ⟨l1, h1, g1⟩ := deliver_calls s e
    obtain ⟨l2, h2, g2⟩ := ih (deliver s e)
    refine ⟨l1 ++ l2, ?_, ?_⟩
    · simp only [List.foldl_cons, h2, h1, List.append_assoc]
    · intro c hc
      rcases List.mem_append.mp hc with h | h
      · exact g1 c h
      · exact g2 c h

theorem k_sem_take_calls (sem : Sem) (evs : List Event) (s : State) :
    ∃ l, (k_sem_take sem evs s).2.calls = s.calls ++ l ∧ ∀ c ∈ l, c.isGive := by
  obtain ⟨l, h, g⟩ := foldl_deliver_calls evs s
  refine ⟨l, ?_, g⟩
  unfold k_sem_take
  simp only []
  split
  · exact h
  · simp only [setCount_calls]; exact h

theorem retry_calls (s : State) : (retry s).calls = s.calls := rfl

theorem iteration_calls_shape (env : LoopEnv) (s : State) :
    ∃ g1 g2 g3 : List Call, (∀ c ∈ g1 ++ g2 ++ g3, c.isGive) ∧
      iteration_calls env s =
        (main_loop_iteration env s).1.callsShape g1 g2 g3
          (Call.bt_ras_rreq_cp_get_ranging_data
            (ranging_counter_arg (rd_ready_wait env s).2))
          (Call.estimate_distance (rd_complete_wait env s).2.latest_local_steps.data
            (rd_complete_wait env s).2.latest_peer_steps.data (rd_complete_wait env s).2.n_ap) := by
  obtain ⟨g1, h1, hg1⟩ := k_sem_take_calls .sem_procedure_done env.during_procedure_done_wait
    (s.log Call.bt_le_cs_procedure_enable)
  have h1 : (procedure_done_wait env s).2.calls =
      s.calls ++ (Call.bt_le_cs_procedure_enable :: g1) := by
    unfold procedure_done_wait; rw [h1, log_calls]; simp
  obtain ⟨gg, hgg, hggg⟩ := k_sem_take_calls .sem_rd_ready env.during_grace_wait
    (procedure_done_wait env s).2
  obtain ⟨g2, h2, hg2⟩ := k_sem_take_calls .sem_rd_ready env.during_rd_ready_wait
    (procedure_done_wait env s).2
  have h2 : (rd_ready_wait env s).2.calls = s.calls ++ (Call.bt_le_cs_procedure_enable :: (g1 ++ g2)) := by
    unfold rd_ready_wait; rw [h2, h1]; simp
  obtain ⟨g3, h3, hg3⟩ := k_sem_take_calls .sem_rd_complete env.during_rd_complete_wait
    (get_ranging_data (rd_ready_wait env s).2)
  have hf : (get_ranging_data (rd_ready_wait env s).2).calls = s.calls ++
      (Call.bt_le_cs_procedure_enable :: (g1 ++ g2 ++ [Call.bt_ras_rreq_cp_get_ranging_data
            (ranging_counter_arg (rd_ready_wait env s).2)])) := by
    unfold get_ranging_data; rw [log_calls, h2]; simp
  have h3 : (rd_complete_wait env s).2.calls = s.calls ++
      (Call.bt_le_cs_procedure_enable :: (g1 ++ g2 ++ [Call.bt_ras_rreq_cp_get_ranging_data
            (ranging_counter_arg (rd_ready_wait env s).2)] ++ g3)) := by
    unfold rd_complete_wait; rw [h3, hf]; simp
  have hall : ∀ a b c : List Call, (∀ x ∈ a, x.isGive) → (∀ x ∈ b, x.isGive) →
      (∀ x ∈ c, x.isGive) → ∀ x ∈ a ++ b ++ c, x.isGive := by
    intro a b c ha hb hc x hx
    simp only [List.mem_append] at hx
    rcases hx with (hx | hx) | hx
    · exact ha x hx
    · exact hb x hx
    · exact hc x hx
  unfold iteration_calls main_loop_iteration
  split
  · exact ⟨[], [], [], by simp, by simp [LoopExit.callsShape, log_calls]⟩
  · split
    · exact ⟨g1, gg, [], hall _ _ _ hg1 hggg (by simp),
        by simp [LoopExit.callsShape, retry_calls, hgg, h1]⟩
    · split
      · exact ⟨g1, g2, [], hall _ _ _ hg1 hg2 (by simp),
          by simp [LoopExit.callsShape, retry_calls, h2]⟩
      · split
        · exact ⟨g1, g2, [], hall _ _ _ hg1 hg2 (by simp),
            by simp [LoopExit.callsShape, retry_calls, h2]⟩
        · split
          · exact ⟨g1, g2, [], hall _ _ _ hg1 hg2 (by simp),
              by simp [LoopExit.callsShape, retry_calls, hf]⟩
          · split
            · exact ⟨g1, g2, g3, hall _ _ _ hg1 hg2 hg3,
                by simp [LoopExit.callsShape, retry_calls, h3]⟩
            · exact ⟨g1, g2, g3, hall _ _ _ hg1 hg2 hg3,
                by simp [LoopExit.callsShape, retry_calls, estimate_distance, log_calls, h3]⟩

/-! ## The fetch is gated by the counter comparison -/

theorem mem_callsShape_fetch (x : LoopExit) (g1 g2 g3 : List Call) (c p : Int) (est : Call)
    (hg : ∀ c ∈ g1 ++ g2 ++ g3, c.isGive) (hest : ∀ q, est ≠ Call.bt_ras_rreq_cp_get_ranging_data q) :
    Call.bt_ras_rreq_cp_get_ranging_data c ∈
        x.callsShape g1 g2 g3 (Call.bt_ras_rreq_cp_get_ranging_data p) est ↔
      ((x = .retry_get_ranging_data_failed ∨ x = .retry_rd_complete_timeout ∨ x = .estimated)
        ∧ c = p) := by
  have hn : ∀ g, g ∈ g1 ∨ g ∈ g2 ∨ g ∈ g3 → g ≠ Call.bt_ras_rreq_cp_get_ranging_data c := by
    intro g hgm he
    obtain ⟨sem, hs⟩ := hg g (by simp only [List.mem_append]; tauto)
    rw [he] at hs
    cases hs
  have n1 : Call.bt_ras_rreq_cp_get_ranging_data c ∉ g1 := fun h => hn _ (Or.inl h) rfl
  have n2 : Call.bt_ras_rreq_cp_get_ranging_data c ∉ g2 := fun h => hn _ (Or.inr (Or.inl h)) rfl
  have n3 : Call.bt_ras_rreq_cp_get_ranging_data c ∉ g3 := fun h => hn _ (Or.inr (Or.inr h)) rfl
  have n4 : ¬ Call.bt_ras_rreq_cp_get_ranging_data c = est := fun h => hest c (Eq.symm h)
  cases x <;> simp [LoopExit.callsShape, n1, n2, n3, n4]

/-! ## The subevent handler, branch by branch -/

theorem counter_ne_none (r : SubeventResult) : PROCEDURE_COUNTER_NONE ≠ r.counter := by
  unfold PROCEDURE_COUNTER_NONE SubeventResult.counter
  omega

theorem subevent_result_cb_dropped (r : SubeventResult) (s : State)
    (hd : s.dropped_ranging_counter = r.counter) (he : s.latest_local_steps.data = []) :
    subevent_result_cb r s = s := by
  unfold SubeventResult.counter at hd
  unfold subevent_result_cb
  split
  · obtain ⟨n, ⟨sz, dt⟩, p, pc, lc, dc, s1, s2, s3, cl⟩ := s
    simp only [net_buf_simple_reset] at *
    subst he; subst hd; rfl
  · simp [hd]

theorem subevent_result_cb_aborted (r : SubeventResult) (s : State)
    (ha : r.header.subevent_done_status = .BT_CONN_LE_CS_SUBEVENT_ABORTED) :
    subevent_result_cb r s =
      { s with dropped_ranging_counter := r.counter
               latest_local_steps := net_buf_simple_reset s.latest_local_steps } := by
  unfold subevent_result_cb SubeventResult.counter
  simp [ha]

theorem subevent_result_cb_overflow (r : SubeventResult) (s : State) (d : List Byte)
    (ha : r.header.subevent_done_status ≠ .BT_CONN_LE_CS_SUBEVENT_ABORTED)
    (hd : s.dropped_ranging_counter ≠ r.counter) (hs : r.step_data_buf = some d)
    (ho : net_buf_simple_tailroom s.latest_local_steps < d.length) :
    subevent_result_cb r s =
      { s with latest_local_steps := net_buf_simple_reset s.latest_local_steps
               dropped_ranging_counter := r.counter } := by
  unfold SubeventResult.counter at hd
  unfold subevent_result_cb SubeventResult.counter
  simp [ha, hd, hs, Nat.not_le.mpr ho]

theorem subevent_result_cb_stored (r : SubeventResult) (s : State)
    (ha : r.header.subevent_done_status ≠ .BT_CONN_LE_CS_SUBEVENT_ABORTED)
    (hd : s.dropped_ranging_counter ≠ r.counter)
    (hf : r.step_bytes.length ≤ net_buf_simple_tailroom s.latest_local_steps) :
    subevent_result_cb r s =
      subevent_result_done r
        { s with latest_local_steps := net_buf_simple_add_mem s.latest_local_steps r.step_bytes } := by
  unfold SubeventResult.counter at hd
  unfold subevent_result_cb
  rw [if_neg ha, if_neg hd]
  cases hs : r.step_data_buf with
  | none =>
    obtain ⟨n, ⟨sz, dt⟩, p, pc, lc, dc, s1, s2, s3, cl⟩ := s
    simp [SubeventResult.step_bytes, hs, net_buf_simple_add_mem]
  | some d =>
    have hf2 : d.length ≤ net_buf_simple_tailroom s.latest_local_steps := by
      simpa [SubeventResult.step_bytes, hs] using hf
    simp [SubeventResult.step_bytes, hs, hf2]

theorem subevent_results_dropped (rs : List SubeventResult) (s : State) (c : Int)
    (hd : s.dropped_ranging_counter = c) (he : s.latest_local_steps.data = [])
    (hsame : ∀ q ∈ rs, q.counter = c) :
    subevent_results rs s = s := by
  induction rs with
  | nil => rfl
  | cons q qs ih =>
    have hq : subevent_result_cb q s = s :=
      subevent_result_cb_dropped q s (by rw [hd, hsame q (List.mem_cons_self q qs)]) he
    unfold subevent_results at *
    rw [List.foldl_cons, hq]
    exact ih (fun x hx => hsame x (List.mem_cons_of_mem q hx))

/-- C2: after a notification for counter C whose subevent-done status is aborted, any
further notifications that all carry counter C leave `most_recent_local_ranging_counter`
at the value it had before the aborted notification, and none of them gives
`sem_procedure_done` (no call is logged and its count is unchanged); this holds after
every one of them (every initial part `rs.take k` of the sequence). -/
theorem aborted_subevent_never_completes (s : State) (r : SubeventResult)
    (rs : List SubeventResult)
    (ha : r.header.subevent_done_status = .BT_CONN_LE_CS_SUBEVENT_ABORTED)
    (hsame : ∀ q ∈ rs, q.header.procedure_counter = r.header.procedure_counter) (k : Nat) :
    (subevent_results (rs.take k) (subevent_result_cb r s)).most_recent_local_ranging_counter
        = s.most_recent_local_ranging_counter ∧
      (subevent_results (rs.take k) (subevent_result_cb r s)).calls = s.calls ∧
      (subevent_results (rs.take k) (subevent_result_cb r s)).sem_procedure_done
        = s.sem_procedure_done := by
  have h1 := subevent_result_cb_aborted r s ha
  have h2 : subevent_results (rs.take k) (subevent_result_cb r s) = subevent_result_cb r s := by
    apply subevent_results_dropped _ _ r.counter
    · rw [h1]
    · rw [h1]; rfl
    · intro q hq
      unfold SubeventResult.counter
      rw [hsame q (List.mem_of_mem_take hq)]
  rw [h2, h1]
  exact ⟨rfl, rfl, rfl⟩

theorem aborted_subevent_never_completes_witness :
    (subevent_results
        ([notification 5 .normal .BT_CONN_LE_CS_PROCEDURE_COMPLETE (some [1, 2]),
          notification 5 .normal .BT_CONN_LE_CS_PROCEDURE_COMPLETE none].take 2)
        (subevent_result_cb
          (notification 5 .BT_CONN_LE_CS_SUBEVENT_ABORTED .continuing (some [3]))
          (State.init 64 64))).most_recent_local_ranging_counter
        = PROCEDURE_COUNTER_NONE ∧
      (subevent_results
        ([notification 5 .normal .BT_CONN_LE_CS_PROCEDURE_COMPLETE (some [1, 2]),
          notification 5 .normal .BT_CONN_LE_CS_PROCEDURE_COMPLETE none].take 2)
        (subevent_result_cb
          (notification 5 .BT_CONN_LE_CS_SUBEVENT_ABORTED .continuing (some [3]))
          (State.init 64 64))).calls = [] ∧
      (subevent_results
        ([notification 5 .normal .BT_CONN_LE_CS_PROCEDURE_COMPLETE (some [1, 2]),
          notification 5 .normal .BT_CONN_LE_CS_PROCEDURE_COMPLETE none].take 2)
        (subevent_result_cb
          (notification 5 .BT_CONN_LE_CS_SUBEVENT_ABORTED .continuing (some [3]))
          (State.init 64 64))).sem_procedure_done = 0 :=
  aborted_subevent_never_completes (State.init 64 64)
    (notification 5 .BT_CONN_LE_CS_SUBEVENT_ABORTED .continuing (some [3]))
    [notification 5 .normal .BT_CONN_LE_CS_PROCEDURE_COMPLETE (some [1, 2]),
     notification 5 .normal .BT_CONN_LE_CS_PROCEDURE_COMPLETE none]
    (by decide) (by decide) 2

/-- C3: a notification that is not subevent-aborted, whose counter is not the dropped one
and whose step data is longer than the tailroom of `latest_local_steps` leaves the local
buffer empty (no incoming byte stored), sets `dropped_ranging_counter` to its counter and
changes neither `most_recent_local_ranging_counter` nor `n_ap` nor gives
`sem_procedure_done`; step data of exactly the tailroom is stored and processing goes on
to clear the dropped marker and take the antenna-path count. -/
theorem overflow_discards_and_marks_dropped (s : State) (r : SubeventResult) (d : List Byte)
    (ha : r.header.subevent_done_status ≠ .BT_CONN_LE_CS_SUBEVENT_ABORTED)
    (hd : s.dropped_ranging_counter ≠ r.counter) (hs : r.step_data_buf = some d) :
    (net_buf_simple_tailroom s.latest_local_steps < d.length →
      (subevent_result_cb r s).latest_local_steps.data = [] ∧
      (subevent_result_cb r s).latest_local_steps.len = 0 ∧
      (subevent_result_cb r s).dropped_ranging_counter = r.counter ∧
      (subevent_result_cb r s).most_recent_local_ranging_counter
        = s.most_recent_local_ranging_counter ∧
      (subevent_result_cb r s).n_ap = s.n_ap ∧
      (subevent_result_cb r s).calls = s.calls ∧
      (subevent_result_cb r s).sem_procedure_done = s.sem_procedure_done) ∧
    (d.length = net_buf_simple_tailroom s.latest_local_steps →
      (subevent_result_cb r s).dropped_ranging_counter = PROCEDURE_COUNTER_NONE ∧
      (subevent_result_cb r s).n_ap = r.header.num_antenna_paths ∧
      (r.header.procedure_done_status ≠ .BT_CONN_LE_CS_PROCEDURE_ABORTED →
        (subevent_result_cb r s).latest_local_steps.data = s.latest_local_steps.data ++ d)) := by
  constructor
  · intro ho
    rw [subevent_result_cb_overflow r s d ha hd hs ho]
    exact ⟨rfl, rfl, rfl, rfl, rfl, rfl, rfl⟩
  · intro he
    have hb : r.step_bytes = d := by simp [SubeventResult.step_bytes, hs]
    rw [subevent_result_cb_stored r s ha hd (by rw [hb, he]), hb]
    unfold subevent_result_done
    simp only []
    split
    · refine ⟨?_, ?_, fun _ => ?_⟩ <;>
        simp [k_sem_give, State.log, State.count, State.setCount, net_buf_simple_add_mem] <;>
        split <;> rfl
    · split
      · exact ⟨rfl, rfl, fun h => absurd ‹_› h⟩
      · exact ⟨rfl, rfl, fun _ => rfl⟩

theorem overflow_discards_and_marks_dropped_witness :
    ((subevent_result_cb (notification 5 .normal .continuing (some [1, 2, 3, 4, 5]))
        (State.init 4 64)).latest_local_steps.data = [] ∧
      (subevent_result_cb (notification 5 .normal .continuing (some [1, 2, 3, 4, 5]))
        (State.init 4 64)).latest_local_steps.len = 0 ∧
      (subevent_result_cb (notification 5 .normal .continuing (some [1, 2, 3, 4, 5]))
        (State.init 4 64)).dropped_ranging_counter = 5 ∧
      (subevent_result_cb (notification 5 .normal .continuing (some [1, 2, 3, 4, 5]))
        (State.init 4 64)).most_recent_local_ranging_counter = PROCEDURE_COUNTER_NONE ∧
      (subevent_result_cb (notification 5 .normal .continuing (some [1, 2, 3, 4, 5]))
        (State.init 4 64)).n_ap = 0 ∧
      (subevent_result_cb (notification 5 .normal .continuing (some [1, 2, 3, 4, 5]))
        (State.init 4 64)).calls = [] ∧
      (subevent_result_cb (notification 5 .normal .continuing (some [1, 2, 3, 4, 5]))
        (State.init 4 64)).sem_procedure_done = 0) ∧
    (subevent_result_cb (notification 5 .normal .continuing (some [1, 2, 3, 4]))
        (State.init 4 64)).latest_local_steps.data = [] ++ [1, 2, 3, 4] :=
  ⟨(overflow_discards_and_marks_dropped (State.init 4 64)
      (notification 5 .normal .continuing (some [1, 2, 3, 4, 5])) [1, 2, 3, 4, 5]
      (by decide) (by decide) rfl).1 (by decide),
   ((overflow_discards_and_marks_dropped (State.init 4 64)
      (notification 5 .normal .continuing (some [1, 2, 3, 4])) [1, 2, 3, 4]
      (by decide) (by decide) rfl).2 (by decide)).2.2 (by decide)⟩

theorem subevent_results_continuing (rs : List SubeventResult) (s : State)
    (hdrop : s.dropped_ranging_counter = PROCEDURE_COUNTER_NONE)
    (hnorm : ∀ r ∈ rs, r.header.subevent_done_status = .normal ∧
      r.header.procedure_done_status = .continuing)
    (hsum : s.latest_local_steps.len + (rs.map (fun r => r.step_bytes.length)).sum
      ≤ s.latest_local_steps.size) :
    (subevent_results rs s).latest_local_steps.data =
      s.latest_local_steps.data ++ (rs.map SubeventResult.step_bytes).flatten := by
  induction rs generalizing s with
  | nil => simp [subevent_results]
  | cons q qs ih =>
    obtain ⟨hq1, hq2⟩ := hnorm q (List.mem_cons_self q qs)
    simp only [List.map_cons, List.sum_cons] at hsum
    have hstep : subevent_result_cb q s =
        { s with latest_local_steps := net_buf_simple_add_mem s.latest_local_steps q.step_bytes
                 dropped_ranging_counter := PROCEDURE_COUNTER_NONE
                 n_ap := q.header.num_antenna_paths } := by
      rw [subevent_result_cb_stored q s (by rw [hq1]; decide)
        (by rw [hdrop]; exact counter_ne_none q)
        (by unfold net_buf_simple_tailroom; omega)]
      simp [subevent_result_done, hq2]
    have hfold : subevent_results (q :: qs) s = subevent_results qs (subevent_result_cb q s) := rfl
    rw [hfold, ih (subevent_result_cb q s) (by rw [hstep])
      (fun r hr => hnorm r (List.mem_cons_of_mem q hr))
      (by rw [hstep]; simp only [net_buf_simple_add_mem, NetBufSimple.len, List.length_append]
          unfold NetBufSimple.len at hsum; omega)]
    rw [hstep]
    simp [net_buf_simple_add_mem]

/-- C4: from an empty local buffer with no dropped counter, after any sequence of
notifications with subevent status normal and procedure status continuing whose step-data
lengths sum to at most the capacity, `latest_local_steps` holds the concatenation of their
step data in arrival order, and its length is the sum of their lengths. -/
theorem steps_accumulate_in_arrival_order (s : State) (rs : List SubeventResult)
    (hempty : s.latest_local_steps.data = [])
    (hdrop : s.dropped_ranging_counter = PROCEDURE_COUNTER_NONE)
    (hnorm : ∀ r ∈ rs, r.header.subevent_done_status = .normal ∧
      r.header.procedure_done_status = .continuing)
    (hsum : (rs.map (fun r => r.step_bytes.length)).sum ≤ s.latest_local_steps.size) :
    (subevent_results rs s).latest_local_steps.data
        = (rs.map SubeventResult.step_bytes).flatten ∧
      (subevent_results rs s).latest_local_steps.len
        = (rs.map (fun r => r.step_bytes.length)).sum := by
  have h := subevent_results_continuing rs s hdrop hnorm
    (by simp only [NetBufSimple.len, hempty, List.length_nil]; omega)
  rw [hempty, List.nil_append] at h
  refine ⟨h, ?_⟩
  unfold NetBufSimple.len
  rw [h, List.length_flatten, List.map_map]
  rfl

theorem steps_accumulate_in_arrival_order_witness :
    (subevent_results
        [notification 5 .normal .continuing (some [1, 2]),
         notification 5 .normal .continuing none,
         notification 5 .normal .continuing (some [3, 4, 5])]
        (State.init 5 64)).latest_local_steps.data = [1, 2, 3, 4, 5] ∧
      (subevent_results
        [notification 5 .normal .continuing (some [1, 2]),
         notification 5 .normal .continuing none,
         notification 5 .normal .continuing (some [3, 4, 5])]
        (State.init 5 64)).latest_local_steps.len = 5 :=
  steps_accumulate_in_arrival_order (State.init 5 64)
    [notification 5 .normal .continuing (some [1, 2]),
     notification 5 .normal .continuing none,
     notification 5 .normal .continuing (some [3, 4, 5])]
    rfl rfl (by decide) (by decide)

/-! ## The retry edge -/

theorem retry_len (t : State) :
    (retry t).latest_local_steps.len = 0 ∧ (retry t).latest_peer_steps.len = 0 :=
  ⟨rfl, rfl⟩

theorem iteration_through_retry (env : LoopEnv) (s : State)
    (h : (main_loop_iteration env s).1 ≠ .return_enable_failed) :
    ∃ t, (main_loop_iteration env s).2 = retry t := by
  unfold main_loop_iteration at h ⊢
  split_ifs at h ⊢ <;> first | exact absurd rfl h | exact ⟨_, rfl⟩

/-- C6 (as amended): whenever a pass through the ranging loop takes `goto retry` (local-done
timeout, peer-ready timeout, counter mismatch, fetch request error or fetch-complete
timeout), both `latest_local_steps` and `latest_peer_steps` have length 0 when the pass
ends, that is before the next enable; the code at `retry:` leaves
`dropped_ranging_counter` as it was. -/
theorem retry_edge_resets_both_buffers (env : LoopEnv) (s : State)
    (h : (main_loop_iteration env s).1.isRetry = true) :
    (main_loop_iteration env s).2.latest_local_steps.len = 0 ∧
      (main_loop_iteration env s).2.latest_peer_steps.len = 0 ∧
      ∀ t, (retry t).dropped_ranging_counter = t.dropped_ranging_counter := by
  have hne : (main_loop_iteration env s).1 ≠ .return_enable_failed := by
    intro he; rw [he] at h; exact absurd h (by decide)
  obtain ⟨t, ht⟩ := iteration_through_retry env s hne
  rw [ht]
  exact ⟨rfl, rfl, fun _ => rfl⟩

theorem retry_edge_resets_both_buffers_witness :
    (main_loop_iteration (env_complete 7 6) (State.init 64 64)).2.latest_local_steps.len = 0 ∧
      (main_loop_iteration (env_complete 7 6) (State.init 64 64)).2.latest_peer_steps.len = 0 ∧
      ∀ t, (retry t).dropped_ranging_counter = t.dropped_ranging_counter :=
  retry_edge_resets_both_buffers (env_complete 7 6) (State.init 64 64) (by decide)

/-- C6, the claim as stated fails: a subevent of procedure 3 is reported aborted while the
loop waits for local completion; the wait times out, the pass takes `goto retry`, and at
its end `dropped_ranging_counter` is 3, not `PROCEDURE_COUNTER_NONE`. -/
theorem retry_edge_keeps_dropped_marker :
    (main_loop_iteration env_subevent_aborted (State.init 64 64)).1
        = .retry_procedure_done_timeout ∧
      (main_loop_iteration env_subevent_aborted (State.init 64 64)).2.dropped_ranging_counter
        = 3 ∧
      (main_loop_iteration env_subevent_aborted (State.init 64 64)).2.dropped_ranging_counter
        ≠ PROCEDURE_COUNTER_NONE := by
  decide

/-! ## The estimator is gated by `sem_rd_complete` -/

theorem k_sem_give_rd_complete (sem : Sem) (s : State) (h : sem ≠ .sem_rd_complete) :
    (k_sem_give sem s).sem_rd_complete = s.sem_rd_complete := by
  unfold k_sem_give
  cases sem
  · simp only [State.setCount]; split <;> rfl
  · simp only [State.setCount]; split <;> rfl
  · exact absurd rfl h

theorem subevent_result_cb_rd_complete (r : SubeventResult) (s : State) :
    (subevent_result_cb r s).sem_rd_complete = s.sem_rd_complete := by
  unfold subevent_result_cb subevent_result_done
  split
  · rfl
  · split
    · rfl
    · split
      · split
        · split
          · rw [k_sem_give_rd_complete _ _ (by decide)]
          · split <;> rfl
        · rfl
      · split
        · rw [k_sem_give_rd_complete _ _ (by decide)]
        · split <;> rfl

theorem deliver_rd_complete (s : State) (e : Event)
    (h : ∀ c, e ≠ Event.ranging_data_get_complete c 0) :
    (deliver s e).sem_rd_complete = s.sem_rd_complete := by
  cases e with
  | subevent_result r => exact subevent_result_cb_rd_complete r s
  | ranging_data_get_complete c err =>
    have he : err ≠ 0 := fun h0 => h c (by rw [h0])
    simp [deliver, ranging_data_get_complete_cb, he]
  | ranging_data_ready c =>
    simp only [deliver, ranging_data_ready_cb]
    rw [k_sem_give_rd_complete _ _ (by decide)]
  | ranging_data_overwritten c => rfl
  | ranging_data_store d => rfl

theorem foldl_deliver_rd_complete (evs : List Event) (s : State)
    (h : ∀ e ∈ evs, ∀ c, e ≠ Event.ranging_data_get_complete c 0) :
    (evs.foldl deliver s).sem_rd_complete = s.sem_rd_complete := by
  induction evs generalizing s with
  | nil => rfl
  | cons e es ih =>
    rw [List.foldl_cons, ih _ (fun x hx => h x (List.mem_cons_of_mem e hx)),
      deliver_rd_complete s e (h e (List.mem_cons_self e es))]

theorem estimated_exit_iff (env : LoopEnv) (s : State) :
    (main_loop_iteration env s).1 = .estimated ↔
    (env.procedure_enable_err = 0 ∧ (procedure_done_wait env s).1 = 0 ∧
      (rd_ready_wait env s).1 = 0 ∧ counters_mismatch (rd_ready_wait env s).2 = false ∧
      env.get_ranging_data_err = 0 ∧ (rd_complete_wait env s).1 = 0) := by
  unfold main_loop_iteration
  split_ifs <;> simp_all

theorem mem_callsShape_estimate (x : LoopExit) (g1 g2 g3 : List Call) (p : Int)
    (l q : List Byte) (n : U8) (est : Call) (hg : ∀ c ∈ g1 ++ g2 ++ g3, c.isGive) :
    Call.estimate_distance l q n ∈
        x.callsShape g1 g2 g3 (Call.bt_ras_rreq_cp_get_ranging_data p) est ↔
      (x = .estimated ∧ est = Call.estimate_distance l q n) := by
  have hn : ∀ g, g ∈ g1 ∨ g ∈ g2 ∨ g ∈ g3 → g ≠ Call.estimate_distance l q n := by
    intro g hgm he
    obtain ⟨sem, hs⟩ := hg g (by simp only [List.mem_append]; tauto)
    rw [he] at hs
    cases hs
  have n1 : Call.estimate_distance l q n ∉ g1 := fun h => hn _ (Or.inl h) rfl
  have n2 : Call.estimate_distance l q n ∉ g2 := fun h => hn _ (Or.inr (Or.inl h)) rfl
  have n3 : Call.estimate_distance l q n ∉ g3 := fun h => hn _ (Or.inr (Or.inr h)) rfl
  cases x <;> simp [LoopExit.callsShape, n1, n2, n3, eq_comm]

/-- What the loop does guarantee about the estimator: in one pass `estimate_distance` is
called only if the fetch was issued in that pass, the request returned 0 and the wait on
`sem_rd_complete` returned 0; if the fetch request fails or the wait times out the
estimator is not called and both buffers have length 0 when the pass ends. A completion
callback with `err != 0` returns without giving `sem_rd_complete`, so that the wait times
out, provided no give is left over from an earlier fetch. -/
theorem estimate_only_after_fetch_completed (env : LoopEnv) (s : State) :
    (∀ l q n, Call.estimate_distance l q n ∈ iteration_calls env s →
      Call.bt_ras_rreq_cp_get_ranging_data
          (ranging_counter_arg (rd_ready_wait env s).2) ∈ iteration_calls env s ∧
        env.get_ranging_data_err = 0 ∧ (rd_complete_wait env s).1 = 0) ∧
    ((env.get_ranging_data_err ≠ 0 ∨ (rd_complete_wait env s).1 ≠ 0) →
      (∀ l q n, Call.estimate_distance l q n ∉ iteration_calls env s) ∧
      ((main_loop_iteration env s).1 ≠ .return_enable_failed →
        (main_loop_iteration env s).2.latest_local_steps.len = 0 ∧
        (main_loop_iteration env s).2.latest_peer_steps.len = 0)) ∧
    (∀ c err t, err ≠ 0 → ranging_data_get_complete_cb c err t = t) ∧
    ((get_ranging_data (rd_ready_wait env s).2).sem_rd_complete = 0 →
      (∀ e ∈ env.during_rd_complete_wait, ∀ c, e ≠ Event.ranging_data_get_complete c 0) →
      (rd_complete_wait env s).1 ≠ 0) := by
  obtain ⟨g1, g2, g3, hg, hshape⟩ := iteration_calls_shape env s
  have key : ∀ l q n, Call.estimate_distance l q n ∈ iteration_calls env s →
      Call.bt_ras_rreq_cp_get_ranging_data
          (ranging_counter_arg (rd_ready_wait env s).2) ∈ iteration_calls env s ∧
        env.get_ranging_data_err = 0 ∧ (rd_complete_wait env s).1 = 0 := by
    intro l q n hmem
    rw [hshape, mem_callsShape_estimate _ _ _ _ _ _ _ _ _ hg] at hmem
    obtain ⟨_, _, _, _, h5, h6⟩ := (estimated_exit_iff env s).mp hmem.1
    refine ⟨?_, h5, h6⟩
    rw [hshape, mem_callsShape_fetch _ _ _ _ _ _ _ hg (by intro q h; cases h)]
    exact ⟨Or.inr (Or.inr hmem.1), rfl⟩
  refine ⟨key, ?_, ?_, ?_⟩
  · intro hfail
    refine ⟨fun l q n hmem => ?_, fun hne => ?_⟩
    · obtain ⟨_, h5, h6⟩ := key l q n hmem
      rcases hfail with h | h
      · exact h h5
      · exact h h6
    · obtain ⟨t, ht⟩ := iteration_through_retry env s hne
      rw [ht]
      exact retry_len t
  · intro c err t herr
    simp [ranging_data_get_complete_cb, herr]
  · intro h0 hev
    have hc := foldl_deliver_rd_complete env.during_rd_complete_wait
      (get_ranging_data (rd_ready_wait env s).2) hev
    unfold rd_complete_wait k_sem_take
    simp only [State.count, hc, h0]
    simp [EAGAIN]

/-- C7 (defect in the code): the claim that the estimator is not called when the
completion callback of the fetch reports an error fails at this run from the initial
state. The fetch of 5 times out in one pass and its completion arrives late, with
`err == 0`, during the next pass; in that pass the fetch of 6 is issued and its completion
callback reports error -5, yet the wait on `sem_rd_complete` returns 0 on the give left
over and `estimate_distance` is called, on an empty peer buffer. -/
theorem estimate_called_although_completion_failed :
    (main_loop_iteration env_fetch_times_out (State.init 64 64)).1
        = .retry_rd_complete_timeout ∧
      env_late_completion.during_rd_complete_wait
        = [Event.ranging_data_get_complete 6 (-5)] ∧
      Call.bt_ras_rreq_cp_get_ranging_data 6 ∈
        iteration_calls env_late_completion
          (main_loop_iteration env_fetch_times_out (State.init 64 64)).2 ∧
      (rd_complete_wait env_late_completion
        (main_loop_iteration env_fetch_times_out (State.init 64 64)).2).1 = 0 ∧
      (main_loop_iteration env_late_completion
        (main_loop_iteration env_fetch_times_out (State.init 64 64)).2).1 = .estimated ∧
      Call.estimate_distance [3, 4] [] 1 ∈
        iteration_calls env_late_completion
          (main_loop_iteration env_fetch_times_out (State.init 64 64)).2 := by
  decide

/-! ## Dropped, completed and aborted procedures -/

/-- C8: in the state left by a notification for counter C that overflowed the local buffer
or whose subevent was aborted, every further notification carrying counter C, whatever its
statuses and step data, changes nothing: the whole state (local buffer,
`dropped_ranging_counter`, `most_recent_local_ranging_counter`, `n_ap`, the semaphore
counts and the log of calls) is as it was, after each of them and after all of them. -/
theorem same_counter_after_drop_is_noop (s : State) (r : SubeventResult)
    (qs : List SubeventResult)
    (hdrop : r.header.subevent_done_status = .BT_CONN_LE_CS_SUBEVENT_ABORTED ∨
      (r.header.subevent_done_status ≠ .BT_CONN_LE_CS_SUBEVENT_ABORTED ∧
        s.dropped_ranging_counter ≠ r.counter ∧
        ∃ d, r.step_data_buf = some d ∧
          net_buf_simple_tailroom s.latest_local_steps < d.length))
    (hsame : ∀ q ∈ qs, q.header.procedure_counter = r.header.procedure_counter) :
    (∀ q ∈ qs, subevent_result_cb q (subevent_result_cb r s) = subevent_result_cb r s) ∧
      subevent_results qs (subevent_result_cb r s) = subevent_result_cb r s := by
  have hq : ∀ q ∈ qs, q.counter = r.counter := by
    intro q hmem
    unfold SubeventResult.counter
    rw [hsame q hmem]
  have h1 : (subevent_result_cb r s).dropped_ranging_counter = r.counter := by
    rcases hdrop with ha | ⟨ha, hd, d, hs, ho⟩
    · rw [subevent_result_cb_aborted r s ha]
    · rw [subevent_result_cb_overflow r s d ha hd hs ho]
  have h2 : (subevent_result_cb r s).latest_local_steps.data = [] := by
    rcases hdrop with ha | ⟨ha, hd, d, hs, ho⟩
    · rw [subevent_result_cb_aborted r s ha]; rfl
    · rw [subevent_result_cb_overflow r s d ha hd hs ho]; rfl
  exact ⟨fun q hmem => subevent_result_cb_dropped q _ (by rw [h1, hq q hmem]) h2,
    subevent_results_dropped qs _ r.counter h1 h2 hq⟩

theorem same_counter_after_drop_is_noop_witness :
    (∀ q ∈ [notification 5 .normal .BT_CONN_LE_CS_PROCEDURE_COMPLETE (some [6]),
            notification 5 .BT_CONN_LE_CS_SUBEVENT_ABORTED .continuing none],
      subevent_result_cb q
          (subevent_result_cb (notification 5 .normal .continuing (some [1, 2, 3, 4, 5]))
            (State.init 4 64)) =
        subevent_result_cb (notification 5 .normal .continuing (some [1, 2, 3, 4, 5]))
          (State.init 4 64)) ∧
      subevent_results
          [notification 5 .normal .BT_CONN_LE_CS_PROCEDURE_COMPLETE (some [6]),
           notification 5 .BT_CONN_LE_CS_SUBEVENT_ABORTED .continuing none]
          (subevent_result_cb (notification 5 .normal .continuing (some [1, 2, 3, 4, 5]))
            (State.init 4 64)) =
        subevent_result_cb (notification 5 .normal .continuing (some [1, 2, 3, 4, 5]))
          (State.init 4 64) :=
  same_counter_after_drop_is_noop (State.init 4 64)
    (notification 5 .normal .continuing (some [1, 2, 3, 4, 5]))
    [notification 5 .normal .BT_CONN_LE_CS_PROCEDURE_COMPLETE (some [6]),
     notification 5 .BT_CONN_LE_CS_SUBEVENT_ABORTED .continuing none]
    (Or.inr ⟨by decide, by decide, [1, 2, 3, 4, 5], rfl, by decide⟩) (by decide)

/-- C9: for a notification with subevent status normal, counter different from the dropped
counter, step data (if any) fitting in the tailroom, and procedure-done status complete:
afterwards `most_recent_local_ranging_counter` is the notification's counter,
`dropped_ranging_counter` is `PROCEDURE_COUNTER_NONE`, `n_ap` is its antenna-path count,
its step data has been appended to the local buffer, and `sem_procedure_done` has been
given (one give logged, the semaphore available). -/
theorem complete_records_local_counter (s : State) (r : SubeventResult)
    (hn : r.header.subevent_done_status = .normal)
    (hd : s.dropped_ranging_counter ≠ r.counter)
    (hf : r.step_bytes.length ≤ net_buf_simple_tailroom s.latest_local_steps)
    (hc : r.header.procedure_done_status = .BT_CONN_LE_CS_PROCEDURE_COMPLETE) :
    (subevent_result_cb r s).most_recent_local_ranging_counter = r.counter ∧
      (subevent_result_cb r s).dropped_ranging_counter = PROCEDURE_COUNTER_NONE ∧
      (subevent_result_cb r s).n_ap = r.header.num_antenna_paths ∧
      (subevent_result_cb r s).latest_local_steps.data
        = s.latest_local_steps.data ++ r.step_bytes ∧
      (subevent_result_cb r s).calls = s.calls ++ [Call.k_sem_give .sem_procedure_done] ∧
      0 < (subevent_result_cb r s).sem_procedure_done := by
  rw [subevent_result_cb_stored r s (by rw [hn]; decide) hd hf]
  simp only [subevent_result_done, hc, if_true, k_sem_give, State.log, State.count,
    State.setCount, net_buf_simple_add_mem]
  refine ⟨?_, ?_, ?_, ?_, ?_, ?_⟩ <;> split <;> first | rfl | (simp only []; omega)

theorem complete_records_local_counter_witness :
    (subevent_result_cb (notification 5 .normal .BT_CONN_LE_CS_PROCEDURE_COMPLETE (some [3]))
        (subevent_result_cb (notification 5 .normal .continuing (some [1, 2]))
          (State.init 64 64))).most_recent_local_ranging_counter = 5 ∧
      (subevent_result_cb (notification 5 .normal .BT_CONN_LE_CS_PROCEDURE_COMPLETE (some [3]))
        (subevent_result_cb (notification 5 .normal .continuing (some [1, 2]))
          (State.init 64 64))).dropped_ranging_counter = PROCEDURE_COUNTER_NONE ∧
      (subevent_result_cb (notification 5 .normal .BT_CONN_LE_CS_PROCEDURE_COMPLETE (some [3]))
        (subevent_result_cb (notification 5 .normal .continuing (some [1, 2]))
          (State.init 64 64))).n_ap = 1 ∧
      (subevent_result_cb (notification 5 .normal .BT_CONN_LE_CS_PROCEDURE_COMPLETE (some [3]))
        (subevent_result_cb (notification 5 .normal .continuing (some [1, 2]))
          (State.init 64 64))).latest_local_steps.data = [1, 2] ++ [3] ∧
      (subevent_result_cb (notification 5 .normal .BT_CONN_LE_CS_PROCEDURE_COMPLETE (some [3]))
        (subevent_result_cb (notification 5 .normal .continuing (some [1, 2]))
          (State.init 64 64))).calls = [] ++ [Call.k_sem_give .sem_procedure_done] ∧
      0 < (subevent_result_cb
        (notification 5 .normal .BT_CONN_LE_CS_PROCEDURE_COMPLETE (some [3]))
        (subevent_result_cb (notification 5 .normal .continuing (some [1, 2]))
          (State.init 64 64))).sem_procedure_done :=
  complete_records_local_counter
    (subevent_result_cb (notification 5 .normal .continuing (some [1, 2])) (State.init 64 64))
    (notification 5 .normal .BT_CONN_LE_CS_PROCEDURE_COMPLETE (some [3]))
    rfl (by decide) (by decide) rfl

/-- C10: for a notification with subevent status normal, counter different from the dropped
counter, step data fitting in the tailroom, and procedure-done status aborted: afterwards
the local buffer is empty, `most_recent_local_ranging_counter` is unchanged and
`sem_procedure_done` is not given (no call logged, count unchanged). -/
theorem procedure_aborted_resets_without_recording (s : State) (r : SubeventResult)
    (hn : r.header.subevent_done_status = .normal)
    (hd : s.dropped_ranging_counter ≠ r.counter)
    (hf : r.step_bytes.length ≤ net_buf_simple_tailroom s.latest_local_steps)
    (hc : r.header.procedure_done_status = .BT_CONN_LE_CS_PROCEDURE_ABORTED) :
    (subevent_result_cb r s).latest_local_steps.data = [] ∧
      (subevent_result_cb r s).latest_local_steps.len = 0 ∧
      (subevent_result_cb r s).most_recent_local_ranging_counter
        = s.most_recent_local_ranging_counter ∧
      (subevent_result_cb r s).calls = s.calls ∧
      (subevent_result_cb r s).sem_procedure_done = s.sem_procedure_done := by
  rw [subevent_result_cb_stored r s (by rw [hn]; decide) hd hf]
  simp only [subevent_result_done, hc]
  exact ⟨rfl, rfl, rfl, rfl, rfl⟩

theorem procedure_aborted_resets_without_recording_witness :
    (subevent_result_cb (notification 5 .normal .BT_CONN_LE_CS_PROCEDURE_ABORTED (some [3]))
        (subevent_result_cb (notification 5 .normal .continuing (some [1, 2]))
          (State.init 64 64))).latest_local_steps.data = [] ∧
      (subevent_result_cb (notification 5 .normal .BT_CONN_LE_CS_PROCEDURE_ABORTED (some [3]))
        (subevent_result_cb (notification 5 .normal .continuing (some [1, 2]))
          (State.init 64 64))).latest_local_steps.len = 0 ∧
      (subevent_result_cb (notification 5 .normal .BT_CONN_LE_CS_PROCEDURE_ABORTED (some [3]))
        (subevent_result_cb (notification 5 .normal .continuing (some [1, 2]))
          (State.init 64 64))).most_recent_local_ranging_counter = PROCEDURE_COUNTER_NONE ∧
      (subevent_result_cb (notification 5 .normal .BT_CONN_LE_CS_PROCEDURE_ABORTED (some [3]))
        (subevent_result_cb (notification 5 .normal .continuing (some [1, 2]))
          (State.init 64 64))).calls = [] ∧
      (subevent_result_cb (notification 5 .normal .BT_CONN_LE_CS_PROCEDURE_ABORTED (some [3]))
        (subevent_result_cb (notification 5 .normal .continuing (some [1, 2]))
          (State.init 64 64))).sem_procedure_done = 0 :=
  procedure_aborted_resets_without_recording
    (subevent_result_cb (notification 5 .normal .continuing (some [1, 2])) (State.init 64 64))
    (notification 5 .normal .BT_CONN_LE_CS_PROCEDURE_ABORTED (some [3]))
    rfl (by decide) (by decide) rfl

/-! ## Peer-side counter notifications -/

/-- C11 (as amended): a ranging-data-ready notification carrying counter c sets
`most_recent_peer_ranging_counter` to c (and gives `sem_rd_ready`) while
`most_recent_local_ranging_counter`, `dropped_ranging_counter` and both buffers are
unchanged; a ranging-data-overwritten notification changes nothing at all. -/
theorem ready_records_peer_counter_overwritten_does_not (c : U16) (s : State) :
    ((ranging_data_ready_cb c s).most_recent_peer_ranging_counter = (c.val : Int) ∧
      (ranging_data_ready_cb c s).calls = s.calls ++ [Call.k_sem_give .sem_rd_ready] ∧
      (ranging_data_ready_cb c s).most_recent_local_ranging_counter
        = s.most_recent_local_ranging_counter ∧
      (ranging_data_ready_cb c s).dropped_ranging_counter = s.dropped_ranging_counter ∧
      (ranging_data_ready_cb c s).latest_local_steps = s.latest_local_steps ∧
      (ranging_data_ready_cb c s).latest_peer_steps = s.latest_peer_steps) ∧
    ranging_data_overwritten_cb c s = s := by
  simp only [ranging_data_ready_cb, ranging_data_overwritten_cb, k_sem_give, State.log,
    State.count, State.setCount]
  refine ⟨⟨?_, ?_, ?_, ?_, ?_, ?_⟩, trivial⟩ <;> split <;> rfl

/-- C11, the claim as stated fails: after a ranging-data-overwritten notification carrying
counter 5 in the initial state, `most_recent_peer_ranging_counter` is still
`PROCEDURE_COUNTER_NONE`, not 5. -/
theorem overwritten_does_not_record_peer_counter :
    (ranging_data_overwritten_cb 5 (State.init 64 64)).most_recent_peer_ranging_counter
        = PROCEDURE_COUNTER_NONE ∧
      (ranging_data_overwritten_cb 5 (State.init 64 64)).most_recent_peer_ranging_counter
        ≠ ((5 : U16).val : Int) := by
  decide

/-! ## The dropped marker after a discard -/

/-- C12 (as amended): after a `subevent_result_cb` call whose subevent status is aborted, or
whose step data exceeds the tailroom, `dropped_ranging_counter` equals the counter of that
notification; after a call that stores its step data and discards the buffer because the
procedure-done status is aborted, `dropped_ranging_counter` is `PROCEDURE_COUNTER_NONE`
and the buffer is empty. -/
theorem dropped_marker_after_discard (s : State) (r : SubeventResult) :
    (r.header.subevent_done_status = .BT_CONN_LE_CS_SUBEVENT_ABORTED →
      (subevent_result_cb r s).dropped_ranging_counter = r.counter ∧
      (subevent_result_cb r s).latest_local_steps.len = 0) ∧
    (∀ d, r.header.subevent_done_status ≠ .BT_CONN_LE_CS_SUBEVENT_ABORTED →
      r.step_data_buf = some d → net_buf_simple_tailroom s.latest_local_steps < d.length →
      (subevent_result_cb r s).dropped_ranging_counter = r.counter ∧
      (s.dropped_ranging_counter ≠ r.counter →
        (subevent_result_cb r s).latest_local_steps.len = 0)) ∧
    (r.header.subevent_done_status ≠ .BT_CONN_LE_CS_SUBEVENT_ABORTED →
      s.dropped_ranging_counter ≠ r.counter →
      r.step_bytes.length ≤ net_buf_simple_tailroom s.latest_local_steps →
      r.header.procedure_done_status = .BT_CONN_LE_CS_PROCEDURE_ABORTED →
      (subevent_result_cb r s).dropped_ranging_counter = PROCEDURE_COUNTER_NONE ∧
      (subevent_result_cb r s).latest_local_steps.len = 0) := by
  refine ⟨fun ha => ?_, fun d ha hs ho => ?_, fun ha hd hf hc => ?_⟩
  · rw [subevent_result_cb_aborted r s ha]
    exact ⟨rfl, rfl⟩
  · by_cases hd : s.dropped_ranging_counter = r.counter
    · have hsame : subevent_result_cb r s = s := by
        unfold SubeventResult.counter at hd
        unfold subevent_result_cb
        rw [if_neg ha, if_pos hd]
      rw [hsame]
      exact ⟨hd, fun h => absurd hd h⟩
    · rw [subevent_result_cb_overflow r s d ha hd hs ho]
      exact ⟨rfl, fun _ => rfl⟩
  · rw [subevent_result_cb_stored r s ha hd hf]
    simp only [subevent_result_done, hc]
    exact ⟨rfl, rfl⟩

theorem dropped_marker_after_discard_witness :
    ((subevent_result_cb (notification 5 .BT_CONN_LE_CS_SUBEVENT_ABORTED .continuing none)
        (State.init 4 64)).dropped_ranging_counter = 5 ∧
      (subevent_result_cb (notification 5 .BT_CONN_LE_CS_SUBEVENT_ABORTED .continuing none)
        (State.init 4 64)).latest_local_steps.len = 0) ∧
    (subevent_result_cb (notification 5 .normal .continuing (some [1, 2, 3, 4, 5]))
        (State.init 4 64)).dropped_ranging_counter = 5 ∧
    ((subevent_result_cb (notification 5 .normal .BT_CONN_LE_CS_PROCEDURE_ABORTED (some [3]))
        (State.init 4 64)).dropped_ranging_counter = PROCEDURE_COUNTER_NONE ∧
      (subevent_result_cb (notification 5 .normal .BT_CONN_LE_CS_PROCEDURE_ABORTED (some [3]))
        (State.init 4 64)).latest_local_steps.len = 0) :=
  ⟨(dropped_marker_after_discard (State.init 4 64)
      (notification 5 .BT_CONN_LE_CS_SUBEVENT_ABORTED .continuing none)).1 rfl,
   ((dropped_marker_after_discard (State.init 4 64)
      (notification 5 .normal .continuing (some [1, 2, 3, 4, 5]))).2.1 [1, 2, 3, 4, 5]
      (by decide) rfl (by decide)).1,
   (dropped_marker_after_discard (State.init 4 64)
      (notification 5 .normal .BT_CONN_LE_CS_PROCEDURE_ABORTED (some [3]))).2.2
      (by decide) (by decide) (by decide) rfl⟩

/-- C12, the claim as stated fails: procedure 5 has stored two step bytes when a
notification for 5 with procedure-done status aborted arrives; the buffer is discarded,
yet `dropped_ranging_counter` is `PROCEDURE_COUNTER_NONE` afterwards, not 5. -/
theorem procedure_abort_discards_without_marking :
    (subevent_result_cb (notification 5 .normal .continuing (some [1, 2]))
        (State.init 64 64)).latest_local_steps.data = [1, 2] ∧
      (subevent_result_cb (notification 5 .normal .BT_CONN_LE_CS_PROCEDURE_ABORTED (some [3]))
        (subevent_result_cb (notification 5 .normal .continuing (some [1, 2]))
          (State.init 64 64))).latest_local_steps.data = [] ∧
      (subevent_result_cb (notification 5 .normal .BT_CONN_LE_CS_PROCEDURE_ABORTED (some [3]))
        (subevent_result_cb (notification 5 .normal .continuing (some [1, 2]))
          (State.init 64 64))).dropped_ranging_counter = PROCEDURE_COUNTER_NONE ∧
      (subevent_result_cb (notification 5 .normal .BT_CONN_LE_CS_PROCEDURE_ABORTED (some [3]))
        (subevent_result_cb (notification 5 .normal .continuing (some [1, 2]))
          (State.init 64 64))).dropped_ranging_counter ≠ 5 := by
  decide

theorem subevent_result_cb_len (r : SubeventResult) (s : State) :
    (subevent_result_cb r s).latest_local_steps.len = 0 ∨
      ((subevent_result_cb r s).latest_local_steps.len =
          s.latest_local_steps.len + r.step_bytes.length ∧
        r.step_bytes.length ≤ net_buf_simple_tailroom s.latest_local_steps) ∨
      (subevent_result_cb r s).latest_local_steps.len = s.latest_local_steps.len := by
  by_cases ha : r.header.subevent_done_status = .BT_CONN_LE_CS_SUBEVENT_ABORTED
  · left
    rw [subevent_result_cb_aborted r s ha]; rfl
  · by_cases hd : s.dropped_ranging_counter = r.counter
    · right; right
      have hsame : subevent_result_cb r s = s := by
        unfold SubeventResult.counter at hd
        unfold subevent_result_cb
        rw [if_neg ha, if_pos hd]
      rw [hsame]
    · by_cases hf : r.step_bytes.length ≤ net_buf_simple_tailroom s.latest_local_steps
      · rw [subevent_result_cb_stored r s ha hd hf]
        unfold subevent_result_done
        simp only []
        split
        · right; left
          refine ⟨?_, hf⟩
          simp only [k_sem_give, State.log, State.count, State.setCount, NetBufSimple.len,
            net_buf_simple_add_mem]
          split <;> simp
        · split
          · left; rfl
          · right; left
            exact ⟨by simp [NetBufSimple.len, net_buf_simple_add_mem], hf⟩
      · left
        cases hs : r.step_data_buf with
        | none => simp [SubeventResult.step_bytes, hs] at hf
        | some d =>
          have ho : net_buf_simple_tailroom s.latest_local_steps < d.length := by
            simpa [SubeventResult.step_bytes, hs] using hf
          rw [subevent_result_cb_overflow r s d ha hd hs ho]; rfl

theorem tagged_step_owners_length (t : Tagged) (a : Action)
    (h : t.owners.length = t.state.latest_local_steps.len) :
    (t.step a).owners.length = (t.step a).state.latest_local_steps.len := by
  cases a with
  | reset => rfl
  | notify r =>
    simp only [Tagged.step]
    split
    · rename_i h0; rw [h0]; rfl
    · rename_i h0
      rw [List.length_append, List.length_replicate, h]
      rcases subevent_result_cb_len r t.state with h1 | ⟨h1, _⟩ | h1
      · exact absurd h1 h0
      · omega
      · omega

theorem tagged_run_owners_length (acts : List Action) (t : Tagged)
    (h : t.owners.length = t.state.latest_local_steps.len) :
    (Tagged.run acts t).owners.length = (Tagged.run acts t).state.latest_local_steps.len := by
  induction acts generalizing t with
  | nil => exact h
  | cons a rest ih => exact ih (t.step a) (tagged_step_owners_length t a h)

/-! ## One procedure in the local buffer -/

/-- C13, the claim as stated fails: from the initial state, a continuing notification for
procedure 5 delivers two bytes and then a continuing notification for procedure 6
delivers one; the buffer then holds `[1, 2, 3]`, two bytes of procedure 5 followed by one
of procedure 6. -/
theorem buffer_mixes_two_procedures :
    (Tagged.run
        [Action.notify (notification 5 .normal .continuing (some [1, 2])),
         Action.notify (notification 6 .normal .continuing (some [3]))]
        (Tagged.init 64 64)).state.latest_local_steps.data = [1, 2, 3] ∧
      (Tagged.run
        [Action.notify (notification 5 .normal .continuing (some [1, 2])),
         Action.notify (notification 6 .normal .continuing (some [3]))]
        (Tagged.init 64 64)).owners = [5, 5, 6] ∧
      ¬ (Tagged.run
        [Action.notify (notification 5 .normal .continuing (some [1, 2])),
         Action.notify (notification 6 .normal .continuing (some [3]))]
        (Tagged.init 64 64)).single_procedure := by
  refine ⟨by decide, by decide, fun h => ?_⟩
  exact absurd (h 5 (by decide) 6 (by decide)) (by decide)

theorem foldl_deliver_stable {P : State → Prop} (hP : Stable P) (evs : List Event) (s : State)
    (h : P s) : P (evs.foldl deliver s) := by
  induction evs generalizing s with
  | nil => exact h
  | cons e es ih => exact ih _ (hP.deliver s e h)

theorem k_sem_take_split (sem : Sem) (evs : List Event) (s : State) :
    k_sem_take sem evs s = k_sem_take sem [] (evs.foldl deliver s) := rfl

theorem k_sem_take_stable {P : State → Prop} (hP : Stable P) (sem : Sem) (evs : List Event)
    (s : State) (h : P s) : P (k_sem_take sem evs s).2 := by
  rw [k_sem_take_split]
  exact hP.take _ sem (foldl_deliver_stable hP evs s h)

theorem waits_stable {P : State → Prop} (hP : Stable P) (env : LoopEnv) (s : State) (h : P s) :
    P (procedure_done_wait env s).2 ∧ P (rd_ready_wait env s).2 ∧
      P (get_ranging_data (rd_ready_wait env s).2) ∧ P (rd_complete_wait env s).2 := by
  have h1 : P (procedure_done_wait env s).2 := k_sem_take_stable hP _ _ _ (hP.log s _ h)
  have h2 : P (rd_ready_wait env s).2 := k_sem_take_stable hP _ _ _ h1
  have h3 : P (get_ranging_data (rd_ready_wait env s).2) := hP.log _ _ h2
  exact ⟨h1, h2, h3, k_sem_take_stable hP _ _ _ h3⟩

theorem main_loop_iteration_stable {P : State → Prop} (hP : Stable P) (env : LoopEnv)
    (s : State) (h : P s) : P (main_loop_iteration env s).2 := by
  obtain ⟨h1, h2, h3, h4⟩ := waits_stable hP env s h
  unfold main_loop_iteration
  split_ifs
  · exact hP.log s _ h
  · exact hP.retry _ (k_sem_take_stable hP _ _ _ h1)
  · exact hP.retry _ h2
  · exact hP.retry _ h2
  · exact hP.retry _ h3
  · exact hP.retry _ h4
  · exact hP.retry _ (hP.log _ _ h4)

theorem run_stable {P : State → Prop} (hP : Stable P) (steps : List Step) (s : State)
    (h : P s) : P (run steps s) := by
  induction steps generalizing s with
  | nil => exact h
  | cons st rest ih =>
    apply ih
    cases st with
    | deliver e => exact hP.deliver s e h
    | take sem => exact hP.take s sem h
    | call c => exact hP.log s c h
    | retry => exact hP.retry s h
    | pass env => exact main_loop_iteration_stable hP env s h

/-! ## The local buffer stays within its capacity -/

theorem setCount_local_steps (sem : Sem) (n : Nat) (s : State) :
    (s.setCount sem n).latest_local_steps = s.latest_local_steps := by
  cases sem <;> rfl

theorem k_sem_give_local_steps (sem : Sem) (s : State) :
    (k_sem_give sem s).latest_local_steps = s.latest_local_steps := by
  unfold k_sem_give
  simp only []
  split
  · rw [setCount_local_steps]; rfl
  · rfl

theorem k_sem_take_nil (sem : Sem) (s : State) :
    (k_sem_take sem [] s).2 = s ∨
      (k_sem_take sem [] s).2 = s.setCount sem (s.count sem - 1) := by
  unfold k_sem_take
  simp only [List.foldl_nil]
  split
  · exact Or.inl rfl
  · exact Or.inr rfl

theorem subevent_result_cb_size (r : SubeventResult) (s : State) :
    (subevent_result_cb r s).latest_local_steps.size = s.latest_local_steps.size := by
  unfold subevent_result_cb subevent_result_done
  split
  · rfl
  · split
    · rfl
    · split
      · split
        · split
          · rw [k_sem_give_local_steps]; rfl
          · split <;> rfl
        · rfl
      · split
        · rw [k_sem_give_local_steps]
        · split <;> rfl

theorem deliver_local_steps (s : State) (e : Event) :
    (∃ r, e = Event.subevent_result r) ∨
      (deliver s e).latest_local_steps = s.latest_local_steps := by
  cases e with
  | subevent_result r => exact Or.inl ⟨r, rfl⟩
  | ranging_data_get_complete c err =>
    right
    simp only [deliver, ranging_data_get_complete_cb]
    split
    · rfl
    · rw [k_sem_give_local_steps]
  | ranging_data_ready c =>
    right
    simp only [deliver, ranging_data_ready_cb]
    rw [k_sem_give_local_steps]
  | ranging_data_overwritten c => exact Or.inr rfl
  | ranging_data_store d => exact Or.inr rfl

theorem within_capacity_stable (M : Nat) :
    Stable (fun s => s.latest_local_steps.len ≤ s.latest_local_steps.size ∧
      s.latest_local_steps.size = M) := by
  refine ⟨fun s e h => ?_, fun s sem h => ?_, fun s c h => h, fun s h => ?_⟩
  · rcases deliver_local_steps s e with ⟨r, hr⟩ | hsame
    · subst hr
      simp only [deliver]
      have hsz := subevent_result_cb_size r s
      refine ⟨?_, by rw [hsz]; exact h.2⟩
      rw [hsz]
      rcases subevent_result_cb_len r s with h0 | ⟨h1, hf⟩ | h2
      · omega
      · unfold net_buf_simple_tailroom at hf; omega
      · omega
    · simp only [hsame]; exact h
  · rcases k_sem_take_nil sem s with h0 | h0
    · rw [h0]; exact h
    · rw [h0, setCount_local_steps]; exact h
  · exact ⟨Nat.zero_le _, h.2⟩

theorem subevent_result_cb_checked_eq (r : SubeventResult) (s : State) :
    subevent_result_cb_checked r s = some (subevent_result_cb r s) := by
  unfold subevent_result_cb_checked subevent_result_cb net_buf_simple_add_mem_checked
  split
  · rfl
  · split
    · rfl
    · split
      · split
        · rename_i h; simp [h]
        · rfl
      · rfl

/-- C14: in every state reached from the initial state by any sequence of handler calls
(`subevent_result_cb` with arbitrary counters, statuses and step data among them), loop
operations and buffer resets, the length of `latest_local_steps` is at most its capacity
`LOCAL_PROCEDURE_MEM`, which never changes; and the handler with the append's capacity
check made explicit never takes the overflow branch: line 77 is only entered with at most
the tailroom. -/
theorem local_buffer_within_capacity (LOCAL_PROCEDURE_MEM BT_RAS_PROCEDURE_MEM : Nat)
    (steps : List Step) :
    (run steps (State.init LOCAL_PROCEDURE_MEM BT_RAS_PROCEDURE_MEM)).latest_local_steps.len
        ≤ LOCAL_PROCEDURE_MEM ∧
      (run steps (State.init LOCAL_PROCEDURE_MEM BT_RAS_PROCEDURE_MEM)).latest_local_steps.size
        = LOCAL_PROCEDURE_MEM ∧
      ∀ r s, subevent_result_cb_checked r s = some (subevent_result_cb r s) := by
  have h := run_stable (within_capacity_stable LOCAL_PROCEDURE_MEM) steps
    (State.init LOCAL_PROCEDURE_MEM BT_RAS_PROCEDURE_MEM) ⟨Nat.zero_le _, rfl⟩
  exact ⟨le_of_le_of_eq h.1 h.2, h.2, subevent_result_cb_checked_eq⟩

/-! ## The semaphores vouch for the counters -/

theorem setCount_counters (sem : Sem) (n : Nat) (s : State) :
    (s.setCount sem n).most_recent_local_ranging_counter = s.most_recent_local_ranging_counter ∧
      (s.setCount sem n).most_recent_peer_ranging_counter = s.most_recent_peer_ranging_counter := by
  cases sem <;> exact ⟨rfl, rfl⟩

theorem k_sem_give_counters (sem : Sem) (s : State) :
    (k_sem_give sem s).most_recent_local_ranging_counter = s.most_recent_local_ranging_counter ∧
      (k_sem_give sem s).most_recent_peer_ranging_counter = s.most_recent_peer_ranging_counter := by
  unfold k_sem_give
  simp only []
  split
  · exact setCount_counters _ _ _
  · exact ⟨rfl, rfl⟩

theorem k_sem_give_other (sem : Sem) (s : State) :
    (sem ≠ .sem_procedure_done →
      (k_sem_give sem s).sem_procedure_done = s.sem_procedure_done) ∧
    (sem ≠ .sem_rd_ready → (k_sem_give sem s).sem_rd_ready = s.sem_rd_ready) := by
  unfold k_sem_give
  cases sem <;> simp only [State.setCount] <;> constructor <;> intro h <;>
    first | exact absurd rfl h | (split <;> rfl)

theorem subevent_result_cb_counters (r : SubeventResult) (s : State) :
    (subevent_result_cb r s).most_recent_peer_ranging_counter
        = s.most_recent_peer_ranging_counter ∧
      (subevent_result_cb r s).sem_rd_ready = s.sem_rd_ready ∧
      (((subevent_result_cb r s).most_recent_local_ranging_counter
            = s.most_recent_local_ranging_counter ∧
          (subevent_result_cb r s).sem_procedure_done = s.sem_procedure_done) ∨
        (subevent_result_cb r s).most_recent_local_ranging_counter = r.counter) := by
  by_cases ha : r.header.subevent_done_status = .BT_CONN_LE_CS_SUBEVENT_ABORTED
  · rw [subevent_result_cb_aborted r s ha]
    exact ⟨rfl, rfl, Or.inl ⟨rfl, rfl⟩⟩
  · by_cases hd : s.dropped_ranging_counter = r.counter
    · have hsame : subevent_result_cb r s = s := by
        unfold SubeventResult.counter at hd
        unfold subevent_result_cb
        rw [if_neg ha, if_pos hd]
      rw [hsame]
      exact ⟨rfl, rfl, Or.inl ⟨rfl, rfl⟩⟩
    · by_cases hf : r.step_bytes.length ≤ net_buf_simple_tailroom s.latest_local_steps
      · rw [subevent_result_cb_stored r s ha hd hf]
        unfold subevent_result_done
        simp only []
        split
        · refine ⟨?_, ?_, Or.inr ?_⟩
          · rw [(k_sem_give_counters _ _).2]
          · rw [(k_sem_give_other _ _).2 (by decide)]
          · rw [(k_sem_give_counters _ _).1]; rfl
        · split <;> exact ⟨rfl, rfl, Or.inl ⟨rfl, rfl⟩⟩
      · cases hs : r.step_data_buf with
        | none => simp [SubeventResult.step_bytes, hs] at hf
        | some d =>
          have ho : net_buf_simple_tailroom s.latest_local_steps < d.length := by
            simpa [SubeventResult.step_bytes, hs] using hf
          rw [subevent_result_cb_overflow r s d ha hd hs ho]
          exact ⟨rfl, rfl, Or.inl ⟨rfl, rfl⟩⟩

theorem u16_ne_none (c : U16) : ((c.val : Nat) : Int) ≠ PROCEDURE_COUNTER_NONE := by
  unfold PROCEDURE_COUNTER_NONE
  omega

theorem deliver_counters (s : State) (e : Event) :
    (((deliver s e).most_recent_local_ranging_counter = s.most_recent_local_ranging_counter ∧
        (deliver s e).sem_procedure_done = s.sem_procedure_done) ∨
      (deliver s e).most_recent_local_ranging_counter ≠ PROCEDURE_COUNTER_NONE) ∧
    (((deliver s e).most_recent_peer_ranging_counter = s.most_recent_peer_ranging_counter ∧
        (deliver s e).sem_rd_ready = s.sem_rd_ready) ∨
      (deliver s e).most_recent_peer_ranging_counter ≠ PROCEDURE_COUNTER_NONE) := by
  cases e with
  | subevent_result r =>
    obtain ⟨h1, h2, h3⟩ := subevent_result_cb_counters r s
    refine ⟨?_, Or.inl ⟨h1, h2⟩⟩
    rcases h3 with h | h
    · exact Or.inl h
    · right
      simp only [deliver]
      rw [h]
      exact fun hn => counter_ne_none r hn.symm
  | ranging_data_get_complete c err =>
    simp only [deliver, ranging_data_get_complete_cb]
    split
    · exact ⟨Or.inl ⟨rfl, rfl⟩, Or.inl ⟨rfl, rfl⟩⟩
    · exact ⟨Or.inl ⟨(k_sem_give_counters _ _).1, (k_sem_give_other _ _).1 (by decide)⟩,
        Or.inl ⟨(k_sem_give_counters _ _).2, (k_sem_give_other _ _).2 (by decide)⟩⟩
  | ranging_data_ready c =>
    simp only [deliver, ranging_data_ready_cb]
    refine ⟨Or.inl ⟨(k_sem_give_counters _ _).1, (k_sem_give_other _ _).1 (by decide)⟩,
      Or.inr ?_⟩
    rw [(k_sem_give_counters _ _).2]
    exact u16_ne_none c
  | ranging_data_overwritten c => exact ⟨Or.inl ⟨rfl, rfl⟩, Or.inl ⟨rfl, rfl⟩⟩
  | ranging_data_store d => exact ⟨Or.inl ⟨rfl, rfl⟩, Or.inl ⟨rfl, rfl⟩⟩

theorem sem_inv_stable : Stable sem_inv := by
  refine ⟨fun s e h => ?_, fun s sem h => ?_, fun s c h => h, fun s h => h⟩
  · obtain ⟨hl, hp⟩ := deliver_counters s e
    constructor
    · intro hpos
      rcases hl with ⟨h1, h2⟩ | h1
      · rw [h1]; exact h.1 (by rw [← h2]; exact hpos)
      · exact h1
    · intro hpos
      rcases hp with ⟨h1, h2⟩ | h1
      · rw [h1]; exact h.2 (by rw [← h2]; exact hpos)
      · exact h1
  · rcases k_sem_take_nil sem s with h0 | h0
    · rw [h0]; exact h
    · rw [h0]
      obtain ⟨h1, h2⟩ := h
      cases sem
      · exact ⟨fun hpos => h1 (by simp only [State.setCount, State.count] at hpos; omega), h2⟩
      · exact ⟨h1, fun hpos => h2 (by simp only [State.setCount, State.count] at hpos; omega)⟩
      · exact ⟨h1, h2⟩

theorem local_set_stable :
    Stable (fun s => s.most_recent_local_ranging_counter ≠ PROCEDURE_COUNTER_NONE) := by
  refine ⟨fun s e h => ?_, fun s sem h => ?_, fun s c h => h, fun s h => h⟩
  · rcases (deliver_counters s e).1 with ⟨h1, _⟩ | h1
    · simp only [h1]; exact h
    · exact h1
  · rcases k_sem_take_nil sem s with h0 | h0
    · rw [h0]; exact h
    · rw [h0, (setCount_counters _ _ _).1]; exact h

theorem k_sem_take_ok (sem : Sem) (evs : List Event) (s : State)
    (h : (k_sem_take sem evs s).1 = 0) :
    0 < (evs.foldl deliver s).count sem ∧
      (k_sem_take sem evs s).2 =
        (evs.foldl deliver s).setCount sem ((evs.foldl deliver s).count sem - 1) := by
  unfold k_sem_take at h ⊢
  simp only [] at h ⊢
  split at h
  · simp [EAGAIN] at h
  · rename_i hc
    rw [if_neg hc]
    exact ⟨Nat.pos_of_ne_zero hc, rfl⟩

theorem counters_set_at_comparison (env : LoopEnv) (s : State) (h : sem_inv s)
    (h1 : (procedure_done_wait env s).1 = 0) (h2 : (rd_ready_wait env s).1 = 0) :
    (rd_ready_wait env s).2.most_recent_local_ranging_counter ≠ PROCEDURE_COUNTER_NONE ∧
      (rd_ready_wait env s).2.most_recent_peer_ranging_counter ≠ PROCEDURE_COUNTER_NONE := by
  have i1 : sem_inv (env.during_procedure_done_wait.foldl deliver
      (s.log Call.bt_le_cs_procedure_enable)) :=
    foldl_deliver_stable sem_inv_stable _ _ (sem_inv_stable.log s _ h)
  unfold procedure_done_wait at h1
  obtain ⟨p1, e1⟩ := k_sem_take_ok _ _ _ h1
  have l1 : (procedure_done_wait env s).2.most_recent_local_ranging_counter
      ≠ PROCEDURE_COUNTER_NONE := by
    unfold procedure_done_wait
    rw [e1, (setCount_counters _ _ _).1]
    exact i1.1 p1
  have i2 : sem_inv (procedure_done_wait env s).2 := (waits_stable sem_inv_stable env s h).1
  have i3 : sem_inv (env.during_rd_ready_wait.foldl deliver (procedure_done_wait env s).2) :=
    foldl_deliver_stable sem_inv_stable _ _ i2
  have l3 : (env.during_rd_ready_wait.foldl deliver
      (procedure_done_wait env s).2).most_recent_local_ranging_counter
        ≠ PROCEDURE_COUNTER_NONE :=
    foldl_deliver_stable local_set_stable _ _ l1
  unfold rd_ready_wait at h2 ⊢
  obtain ⟨p2, e2⟩ := k_sem_take_ok _ _ _ h2
  rw [e2, (setCount_counters _ _ _).1, (setCount_counters _ _ _).2]
  exact ⟨l3, i3.2 p2⟩

/-- C15: in every state reached from the initial state (both counters
`PROCEDURE_COUNTER_NONE`, all semaphores 0) by any interleaving of handler calls and
loop operations: if `sem_procedure_done` is available then
`most_recent_local_ranging_counter` is not `PROCEDURE_COUNTER_NONE`, and if `sem_rd_ready`
is available then `most_recent_peer_ranging_counter` is not `PROCEDURE_COUNTER_NONE`;
so whenever a pass from such a state reaches the comparison of line 577 (both waits
returned 0) both counters are set; and every 16-bit counter widened to `int32_t` lies in
0..65535 and differs from the sentinel -1. -/
theorem semaphores_vouch_for_counters (LOCAL_PROCEDURE_MEM BT_RAS_PROCEDURE_MEM : Nat)
    (steps : List Step) :
    (0 < (run steps (State.init LOCAL_PROCEDURE_MEM BT_RAS_PROCEDURE_MEM)).sem_procedure_done →
      (run steps (State.init LOCAL_PROCEDURE_MEM
        BT_RAS_PROCEDURE_MEM)).most_recent_local_ranging_counter ≠ PROCEDURE_COUNTER_NONE) ∧
    (0 < (run steps (State.init LOCAL_PROCEDURE_MEM BT_RAS_PROCEDURE_MEM)).sem_rd_ready →
      (run steps (State.init LOCAL_PROCEDURE_MEM
        BT_RAS_PROCEDURE_MEM)).most_recent_peer_ranging_counter ≠ PROCEDURE_COUNTER_NONE) ∧
    (∀ env,
      (procedure_done_wait env
        (run steps (State.init LOCAL_PROCEDURE_MEM BT_RAS_PROCEDURE_MEM))).1 = 0 →
      (rd_ready_wait env
        (run steps (State.init LOCAL_PROCEDURE_MEM BT_RAS_PROCEDURE_MEM))).1 = 0 →
      (rd_ready_wait env (run steps (State.init LOCAL_PROCEDURE_MEM
          BT_RAS_PROCEDURE_MEM))).2.most_recent_local_ranging_counter
        ≠ PROCEDURE_COUNTER_NONE ∧
      (rd_ready_wait env (run steps (State.init LOCAL_PROCEDURE_MEM
          BT_RAS_PROCEDURE_MEM))).2.most_recent_peer_ranging_counter
        ≠ PROCEDURE_COUNTER_NONE) ∧
    (∀ c : U16, ((c.val : Nat) : Int) ≠ PROCEDURE_COUNTER_NONE ∧
      0 ≤ ((c.val : Nat) : Int) ∧ ((c.val : Nat) : Int) ≤ 65535) := by
  have hinit : sem_inv (State.init LOCAL_PROCEDURE_MEM BT_RAS_PROCEDURE_MEM) :=
    ⟨fun h => absurd h (Nat.lt_irrefl 0), fun h => absurd h (Nat.lt_irrefl 0)⟩
  have h := run_stable sem_inv_stable steps _ hinit
  refine ⟨h.1, h.2, fun env h1 h2 => counters_set_at_comparison env _ h h1 h2, fun c => ?_⟩
  refine ⟨u16_ne_none c, by omega, by omega⟩

theorem semaphores_vouch_for_counters_witness :
    (run [Step.deliver (Event.subevent_result
            (notification 5 .normal .BT_CONN_LE_CS_PROCEDURE_COMPLETE (some [1, 2])))]
        (State.init 64 64)).most_recent_local_ranging_counter ≠ PROCEDURE_COUNTER_NONE ∧
    (run [Step.deliver (Event.ranging_data_ready 6)]
        (State.init 64 64)).most_recent_peer_ranging_counter ≠ PROCEDURE_COUNTER_NONE ∧
    ((rd_ready_wait (env_complete 7 6) (run [Step.pass env_fetch_times_out]
          (State.init 64 64))).2.most_recent_local_ranging_counter
        ≠ PROCEDURE_COUNTER_NONE ∧
      (rd_ready_wait (env_complete 7 6) (run [Step.pass env_fetch_times_out]
          (State.init 64 64))).2.most_recent_peer_ranging_counter
        ≠ PROCEDURE_COUNTER_NONE) :=
  ⟨(semaphores_vouch_for_counters 64 64
      [Step.deliver (Event.subevent_result
        (notification 5 .normal .BT_CONN_LE_CS_PROCEDURE_COMPLETE (some [1, 2])))]).1
      (by decide),
   (semaphores_vouch_for_counters 64 64 [Step.deliver (Event.ranging_data_ready 6)]).2.1
      (by decide),
   (semaphores_vouch_for_counters 64 64 [Step.pass env_fetch_times_out]).2.2.1
      (env_complete 7 6) (by decide) (by decide)⟩

/-! ## The fetch is issued for the common counter -/

theorem record_both_orders (t : State) (r : SubeventResult) (d : U16)
    (hn : r.header.subevent_done_status = .normal)
    (hd : t.dropped_ranging_counter ≠ r.counter)
    (hf : r.step_bytes.length ≤ net_buf_simple_tailroom t.latest_local_steps)
    (hc : r.header.procedure_done_status = .BT_CONN_LE_CS_PROCEDURE_COMPLETE) :
    ((ranging_data_ready_cb d (subevent_result_cb r t)).most_recent_peer_ranging_counter
        = ((d.val : Nat) : Int) ∧
      (ranging_data_ready_cb d (subevent_result_cb r t)).most_recent_local_ranging_counter
        = r.counter) ∧
    ((subevent_result_cb r (ranging_data_ready_cb d t)).most_recent_peer_ranging_counter
        = ((d.val : Nat) : Int) ∧
      (subevent_result_cb r (ranging_data_ready_cb d t)).most_recent_local_ranging_counter
        = r.counter) := by
  have ha : r.header.subevent_done_status ≠ .BT_CONN_LE_CS_SUBEVENT_ABORTED := by
    rw [hn]; decide
  have h1 : ∀ u : State, u.dropped_ranging_counter = t.dropped_ranging_counter →
      u.latest_local_steps = t.latest_local_steps →
      (subevent_result_cb r u).most_recent_local_ranging_counter = r.counter ∧
      (subevent_result_cb r u).most_recent_peer_ranging_counter
        = u.most_recent_peer_ranging_counter := by
    intro u hu1 hu2
    rw [subevent_result_cb_stored r u ha (by rw [hu1]; exact hd) (by rw [hu2]; exact hf)]
    simp only [subevent_result_done, hc, if_true, k_sem_give]
    constructor <;> split <;> rfl
  have h2 : ∀ u : State,
      (ranging_data_ready_cb d u).most_recent_peer_ranging_counter = ((d.val : Nat) : Int) ∧
      (ranging_data_ready_cb d u).most_recent_local_ranging_counter
        = u.most_recent_local_ranging_counter ∧
      (ranging_data_ready_cb d u).dropped_ranging_counter = u.dropped_ranging_counter ∧
      (ranging_data_ready_cb d u).latest_local_steps = u.latest_local_steps := by
    intro u
    simp only [ranging_data_ready_cb, k_sem_give]
    refine ⟨?_, ?_, ?_, ?_⟩ <;> split <;> rfl
  obtain ⟨a1, _⟩ := h1 t rfl rfl
  obtain ⟨b1, b2⟩ := h1 (ranging_data_ready_cb d t) (h2 t).2.2.1 (h2 t).2.2.2
  exact ⟨⟨(h2 _).1, by rw [(h2 _).2.1, a1]⟩, ⟨by rw [b2, (h2 t).1], b1⟩⟩

theorem counters_match_iff_of_set (s : State)
    (hp : s.most_recent_peer_ranging_counter ≠ PROCEDURE_COUNTER_NONE)
    (hl : s.most_recent_local_ranging_counter ≠ PROCEDURE_COUNTER_NONE) :
    counters_mismatch s = false ↔
      (s.most_recent_peer_ranging_counter ≠ PROCEDURE_COUNTER_NONE ∧
        s.most_recent_local_ranging_counter ≠ PROCEDURE_COUNTER_NONE ∧
        s.most_recent_peer_ranging_counter = s.most_recent_local_ranging_counter) := by
  simp only [counters_mismatch, bne_eq_false_iff_eq]
  exact ⟨fun h => ⟨hp, hl, h⟩, fun h => h.2.2⟩

/-- C5: at every comparison of line 577 that a pass reaches (both waits returned 0) from a
state reached from the initial state, the check passes if and only if both counters are
set (neither is `PROCEDURE_COUNTER_NONE`) and they are numerically equal; and for a
notification recording local-complete(c) (subevent normal, counter not dropped, step data
fitting, procedure complete) and a peer-ready(d), recorded in either order from any state,
the check gives the same result for both orders, again "both set and equal", which is
c = d. -/
theorem alignment_check_iff_set_and_equal (LOCAL_PROCEDURE_MEM BT_RAS_PROCEDURE_MEM : Nat)
    (steps : List Step) (env : LoopEnv) (t : State) (r : SubeventResult) (d : U16)
    (h1 : (procedure_done_wait env
      (run steps (State.init LOCAL_PROCEDURE_MEM BT_RAS_PROCEDURE_MEM))).1 = 0)
    (h2 : (rd_ready_wait env
      (run steps (State.init LOCAL_PROCEDURE_MEM BT_RAS_PROCEDURE_MEM))).1 = 0)
    (hn : r.header.subevent_done_status = .normal)
    (hd : t.dropped_ranging_counter ≠ r.counter)
    (hf : r.step_bytes.length ≤ net_buf_simple_tailroom t.latest_local_steps)
    (hc : r.header.procedure_done_status = .BT_CONN_LE_CS_PROCEDURE_COMPLETE) :
    (counters_mismatch (rd_ready_wait env
        (run steps (State.init LOCAL_PROCEDURE_MEM BT_RAS_PROCEDURE_MEM))).2 = false ↔
      ((rd_ready_wait env (run steps (State.init LOCAL_PROCEDURE_MEM
          BT_RAS_PROCEDURE_MEM))).2.most_recent_peer_ranging_counter
          ≠ PROCEDURE_COUNTER_NONE ∧
        (rd_ready_wait env (run steps (State.init LOCAL_PROCEDURE_MEM
          BT_RAS_PROCEDURE_MEM))).2.most_recent_local_ranging_counter
          ≠ PROCEDURE_COUNTER_NONE ∧
        (rd_ready_wait env (run steps (State.init LOCAL_PROCEDURE_MEM
          BT_RAS_PROCEDURE_MEM))).2.most_recent_peer_ranging_counter =
        (rd_ready_wait env (run steps (State.init LOCAL_PROCEDURE_MEM
          BT_RAS_PROCEDURE_MEM))).2.most_recent_local_ranging_counter)) ∧
    counters_mismatch (ranging_data_ready_cb d (subevent_result_cb r t)) =
      counters_mismatch (subevent_result_cb r (ranging_data_ready_cb d t)) ∧
    (counters_mismatch (ranging_data_ready_cb d (subevent_result_cb r t)) = false ↔
      ((ranging_data_ready_cb d (subevent_result_cb r t)).most_recent_peer_ranging_counter
          ≠ PROCEDURE_COUNTER_NONE ∧
        (ranging_data_ready_cb d (subevent_result_cb r t)).most_recent_local_ranging_counter
          ≠ PROCEDURE_COUNTER_NONE ∧
        (ranging_data_ready_cb d (subevent_result_cb r t)).most_recent_peer_ranging_counter =
        (ranging_data_ready_cb d (subevent_result_cb r t)).most_recent_local_ranging_counter)) ∧
    (counters_mismatch (subevent_result_cb r (ranging_data_ready_cb d t)) = false ↔
      ((subevent_result_cb r (ranging_data_ready_cb d t)).most_recent_peer_ranging_counter
          ≠ PROCEDURE_COUNTER_NONE ∧
        (subevent_result_cb r (ranging_data_ready_cb d t)).most_recent_local_ranging_counter
          ≠ PROCEDURE_COUNTER_NONE ∧
        (subevent_result_cb r (ranging_data_ready_cb d t)).most_recent_peer_ranging_counter =
        (subevent_result_cb r (ranging_data_ready_cb d t)).most_recent_local_ranging_counter)) ∧
    (counters_mismatch (ranging_data_ready_cb d (subevent_result_cb r t)) = false ↔
      r.header.procedure_counter = d) := by
  have hinv : sem_inv (run steps (State.init LOCAL_PROCEDURE_MEM BT_RAS_PROCEDURE_MEM)) :=
    run_stable sem_inv_stable steps _
      ⟨fun h => absurd h (Nat.lt_irrefl 0), fun h => absurd h (Nat.lt_irrefl 0)⟩
  obtain ⟨hl, hp⟩ := counters_set_at_comparison env _ hinv h1 h2
  obtain ⟨⟨a1, a2⟩, ⟨b1, b2⟩⟩ := record_both_orders t r d hn hd hf hc
  have hdn : ((d.val : Nat) : Int) ≠ PROCEDURE_COUNTER_NONE := u16_ne_none d
  have hrn : r.counter ≠ PROCEDURE_COUNTER_NONE := fun h => counter_ne_none r h.symm
  have e1 : counters_mismatch (ranging_data_ready_cb d (subevent_result_cb r t)) =
      (((d.val : Nat) : Int) != r.counter) := by
    unfold counters_mismatch; rw [a1, a2]
  have e2 : counters_mismatch (subevent_result_cb r (ranging_data_ready_cb d t)) =
      (((d.val : Nat) : Int) != r.counter) := by
    unfold counters_mismatch; rw [b1, b2]
  refine ⟨counters_match_iff_of_set _ hp hl, by rw [e1, e2],
    counters_match_iff_of_set _ (by rw [a1]; exact hdn) (by rw [a2]; exact hrn),
    counters_match_iff_of_set _ (by rw [b1]; exact hdn) (by rw [b2]; exact hrn), ?_⟩
  rw [e1]
  simp only [SubeventResult.counter, bne_eq_false_iff_eq, Nat.cast_inj]
  constructor
  · intro h; exact Fin.ext h.symm
  · intro h; rw [h]

theorem alignment_check_iff_set_and_equal_witness :
    (counters_mismatch (rd_ready_wait (env_complete 7 6) (run [] (State.init 64 64))).2 = false ↔
      ((rd_ready_wait (env_complete 7 6) (run []
          (State.init 64 64))).2.most_recent_peer_ranging_counter ≠ PROCEDURE_COUNTER_NONE ∧
        (rd_ready_wait (env_complete 7 6) (run []
          (State.init 64 64))).2.most_recent_local_ranging_counter ≠ PROCEDURE_COUNTER_NONE ∧
        (rd_ready_wait (env_complete 7 6) (run []
          (State.init 64 64))).2.most_recent_peer_ranging_counter =
        (rd_ready_wait (env_complete 7 6) (run []
          (State.init 64 64))).2.most_recent_local_ranging_counter)) ∧
    counters_mismatch (ranging_data_ready_cb 5
        (subevent_result_cb (notification 5 .normal .BT_CONN_LE_CS_PROCEDURE_COMPLETE none)
          (State.init 64 64))) =
      counters_mismatch
        (subevent_result_cb (notification 5 .normal .BT_CONN_LE_CS_PROCEDURE_COMPLETE none)
          (ranging_data_ready_cb 5 (State.init 64 64))) :=
  ⟨(alignment_check_iff_set_and_equal 64 64 [] (env_complete 7 6) (State.init 64 64)
      (notification 5 .normal .BT_CONN_LE_CS_PROCEDURE_COMPLETE none) 5
      (by decide) (by decide) rfl (by decide) (by decide) rfl).1,
   (alignment_check_iff_set_and_equal 64 64 [] (env_complete 7 6) (State.init 64 64)
      (notification 5 .normal .BT_CONN_LE_CS_PROCEDURE_COMPLETE none) 5
      (by decide) (by decide) rfl (by decide) (by decide) rfl).2.1⟩

/-! ## When the local buffer holds one procedure -/

theorem stores_iff (r : SubeventResult) (s : State) :
    r.stores s = true ↔
      (r.header.subevent_done_status ≠ .BT_CONN_LE_CS_SUBEVENT_ABORTED ∧
        s.dropped_ranging_counter ≠ r.counter ∧ r.step_bytes ≠ [] ∧
        r.step_bytes.length ≤ net_buf_simple_tailroom s.latest_local_steps ∧
        r.header.procedure_done_status ≠ .BT_CONN_LE_CS_PROCEDURE_ABORTED) := by
  simp only [SubeventResult.stores, Bool.and_eq_true, decide_eq_true_eq]
  tauto

theorem stores_len (r : SubeventResult) (s : State) (h : r.stores s = true) :
    (subevent_result_cb r s).latest_local_steps.len =
        s.latest_local_steps.len + r.step_bytes.length ∧
      0 < r.step_bytes.length := by
  obtain ⟨ha, hd, hb, hf, hp⟩ := (stores_iff r s).mp h
  refine ⟨?_, List.length_pos.mpr hb⟩
  rw [subevent_result_cb_stored r s ha hd hf]
  simp only [subevent_result_done, if_neg hp]
  split
  · rw [k_sem_give_local_steps]
    simp [NetBufSimple.len, net_buf_simple_add_mem]
  · simp [NetBufSimple.len, net_buf_simple_add_mem]

theorem not_stores_len (r : SubeventResult) (s : State) (h : r.stores s = false) :
    (subevent_result_cb r s).latest_local_steps.len = 0 ∨
      (subevent_result_cb r s).latest_local_steps.len = s.latest_local_steps.len := by
  by_cases ha : r.header.subevent_done_status = .BT_CONN_LE_CS_SUBEVENT_ABORTED
  · left
    rw [subevent_result_cb_aborted r s ha]; rfl
  · by_cases hd : s.dropped_ranging_counter = r.counter
    · right
      have hsame : subevent_result_cb r s = s := by
        unfold SubeventResult.counter at hd
        unfold subevent_result_cb
        rw [if_neg ha, if_pos hd]
      rw [hsame]
    · by_cases hf : r.step_bytes.length ≤ net_buf_simple_tailroom s.latest_local_steps
      · by_cases hp : r.header.procedure_done_status = .BT_CONN_LE_CS_PROCEDURE_ABORTED
        · left
          rw [subevent_result_cb_stored r s ha hd hf]
          simp only [subevent_result_done, hp]
          rfl
        · have hb : r.step_bytes = [] := by
            by_contra hne
            have := (stores_iff r s).mpr ⟨ha, hd, hne, hf, hp⟩
            rw [h] at this
            exact Bool.noConfusion this
          right
          rw [subevent_result_cb_stored r s ha hd hf, hb]
          simp only [subevent_result_done, if_neg hp]
          split
          · rw [k_sem_give_local_steps]
            simp [NetBufSimple.len, net_buf_simple_add_mem]
          · simp [NetBufSimple.len, net_buf_simple_add_mem]
      · left
        cases hs : r.step_data_buf with
        | none => simp [SubeventResult.step_bytes, hs] at hf
        | some d =>
          have ho : net_buf_simple_tailroom s.latest_local_steps < d.length := by
            simpa [SubeventResult.step_bytes, hs] using hf
          rw [subevent_result_cb_overflow r s d ha hd hs ho]; rfl

theorem stores_owners (t : Tagged) (r : SubeventResult) (h : r.stores t.state = true) :
    (t.step (.notify r)).owners =
        t.owners ++ List.replicate r.step_bytes.length r.header.procedure_counter ∧
      0 < r.step_bytes.length := by
  obtain ⟨h1, h2⟩ := stores_len r t.state h
  refine ⟨?_, h2⟩
  simp only [Tagged.step]
  rw [if_neg (by omega), h1]
  congr 2
  omega

theorem not_stores_owners (t : Tagged) (r : SubeventResult) (h : r.stores t.state = false) :
    (t.step (.notify r)).owners = [] ∨ (t.step (.notify r)).owners = t.owners := by
  simp only [Tagged.step]
  split
  · exact Or.inl rfl
  · rename_i h0
    right
    rcases not_stores_len r t.state h with h1 | h1
    · exact absurd h1 h0
    · rw [h1]; simp

theorem step_single_of_not_mixes (t : Tagged) (a : Action) (hs : t.single_procedure)
    (hm : t.mixes a = false) : (t.step a).single_procedure := by
  cases a with
  | reset => intro a ha; simp [Tagged.step] at ha
  | notify r =>
    cases hst : r.stores t.state with
    | false =>
      rcases not_stores_owners t r hst with h | h
      · intro a ha; rw [h] at ha; simp at ha
      · intro a ha b hb; rw [h] at ha hb; exact hs a ha b hb
    | true =>
      simp only [Tagged.mixes, hst, Bool.true_and, List.any_eq_false, decide_eq_true_eq,
        not_not] at hm
      have hall : ∀ o ∈ (t.step (.notify r)).owners, o = r.header.procedure_counter := by
        intro o ho
        rw [(stores_owners t r hst).1] at ho
        rcases List.mem_append.mp ho with h | h
        · exact hm o h
        · exact (List.mem_replicate.mp h).2
      intro a ha b hb
      rw [hall a ha, hall b hb]

theorem step_not_single_of_mixes (t : Tagged) (a : Action) (hm : t.mixes a = true) :
    ¬ (t.step a).single_procedure := by
  cases a with
  | reset => simp [Tagged.mixes] at hm
  | notify r =>
    simp only [Tagged.mixes, Bool.and_eq_true, List.any_eq_true, decide_eq_true_eq] at hm
    obtain ⟨hst, o, ho, hne⟩ := hm
    obtain ⟨hown, hpos⟩ := stores_owners t r hst
    intro hsingle
    apply hne
    apply hsingle o (by rw [hown]; exact List.mem_append_left _ ho)
    rw [hown]
    apply List.mem_append_right
    exact List.mem_replicate.mpr ⟨by omega, rfl⟩

theorem single_along_run_iff (acts : List Action) (t : Tagged) (hs : t.single_procedure) :
    (∀ k, (Tagged.run (acts.take k) t).single_procedure) ↔ t.separated acts = true := by
  induction acts generalizing t with
  | nil => exact ⟨fun _ => rfl, fun _ k => by simpa [Tagged.run] using hs⟩
  | cons a rest ih =>
    constructor
    · intro h
      have h1 : (t.step a).single_procedure := by
        have := h 1
        simpa [Tagged.run] using this
      have hm : t.mixes a = false := by
        cases hmx : t.mixes a with
        | false => rfl
        | true => exact absurd h1 (step_not_single_of_mixes t a hmx)
      simp only [Tagged.separated, hm, Bool.not_false, Bool.true_and]
      exact (ih (t.step a) h1).mp (fun k => by
        have := h (k + 1)
        simpa [Tagged.run] using this)
    · intro h k
      simp only [Tagged.separated, Bool.and_eq_true, Bool.not_eq_true'] at h
      cases k with
      | zero => simpa [Tagged.run] using hs
      | succ n =>
        have h1 := step_single_of_not_mixes t a hs h.1
        have := (ih (t.step a) h1).mpr h.2 n
        simpa [Tagged.run] using this

/-- C13 (as amended): along a run of subevent notifications (arbitrary counters and
statuses) and orchestrator resets from the initial state, every state reached holds in
`latest_local_steps` only bytes delivered by notifications carrying one and the same
procedure counter if and only if no notification of the run that stores step data
(subevent not aborted, counter not the dropped one, non-empty step data within the
tailroom, procedure-done status not aborted) arrives while the buffer holds a byte of
another counter; every byte held has an owner. The handler never compares an incoming
counter with that of the bytes already held, so a run with such a notification reaches a
state holding bytes of two procedures. -/
theorem one_procedure_in_buffer_iff_separated (LOCAL_PROCEDURE_MEM BT_RAS_PROCEDURE_MEM : Nat)
    (acts : List Action) :
    ((∀ k, (Tagged.run (acts.take k)
        (Tagged.init LOCAL_PROCEDURE_MEM BT_RAS_PROCEDURE_MEM)).single_procedure) ↔
      (Tagged.init LOCAL_PROCEDURE_MEM BT_RAS_PROCEDURE_MEM).separated acts = true) ∧
    (Tagged.run acts (Tagged.init LOCAL_PROCEDURE_MEM BT_RAS_PROCEDURE_MEM)).owners.length =
      (Tagged.run acts
        (Tagged.init LOCAL_PROCEDURE_MEM BT_RAS_PROCEDURE_MEM)).state.latest_local_steps.len :=
  ⟨single_along_run_iff acts _ (by intro a ha; simp [Tagged.init] at ha),
   tagged_run_owners_length acts _ rfl⟩

theorem one_procedure_in_buffer_iff_separated_witness :
    ∀ k, (Tagged.run
      ([Action.notify (notification 5 .normal .continuing (some [1, 2])),
        Action.notify (notification 6 .BT_CONN_LE_CS_SUBEVENT_ABORTED .continuing (some [9])),
        Action.notify (notification 7 .normal .continuing (some [3])),
        Action.notify (notification 7 .normal .BT_CONN_LE_CS_PROCEDURE_COMPLETE (some [4])),
        Action.reset,
        Action.notify (notification 8 .normal .continuing (some [5]))].take k)
      (Tagged.init 64 64)).single_procedure :=
  (one_procedure_in_buffer_iff_separated 64 64
    [Action.notify (notification 5 .normal .continuing (some [1, 2])),
     Action.notify (notification 6 .BT_CONN_LE_CS_SUBEVENT_ABORTED .continuing (some [9])),
     Action.notify (notification 7 .normal .continuing (some [3])),
     Action.notify (notification 7 .normal .BT_CONN_LE_CS_PROCEDURE_COMPLETE (some [4])),
     Action.reset,
     Action.notify (notification 8 .normal .continuing (some [5]))]).1.mpr (by decide)

end ChannelSounding
